import Mathlib

/-!
The Leaseweb UltraCDN client of ultracdn-exporter (`lswb.go`).

A shallow embedding of the client in `lswb.go` and the properties of its
request construction, status handling and response decoding.

Go strings are byte sequences; they are modelled as lists of bytes.
-/

namespace Lswb

deriving instance DecidableEq for Except

/-- One byte of a Go string. -/
abbrev Byte := Fin 256

/-- A Go `string`: an immutable sequence of bytes. -/
abbrev GoString := List Byte

/-- The bytes of a source-code string literal (UTF-8, as the Go compiler stores it). -/
def lit (s : String) : GoString :=
  (s.toList.flatMap String.utf8EncodeChar).map (fun b => b.val)

/-- The byte of an ASCII character literal such as `'&'`. -/
def ch (c : Char) : Byte := Fin.ofNat c.toNat

/-- `fmt.Sprintf(format, args...)` for the verbs the source uses with string operands:
`%s` writes the next operand (or `%!s(MISSING)` when none is left), `%%` writes a
percent sign, every other byte is copied. -/
def Sprintf : GoString → List GoString → GoString
  | [], _ => []
  | [c], _ => [c]
  | c :: d :: rest, args =>
    if c = ch '%' then
      if d = ch 's' then
        match args with
        | a :: as => a ++ Sprintf rest as
        | [] => lit "%!s(MISSING)" ++ Sprintf rest []
      else if d = ch '%' then ch '%' :: Sprintf rest args
      else c :: Sprintf (d :: rest) args
    else c :: Sprintf (d :: rest) args

/-! ## `net/url`: query escaping, `Values`, `Encode`, `ParseQuery` -/

/-- The table `upperhex` of `net/url`. -/
def upperhex : GoString := lit "0123456789ABCDEF"

/-- `shouldEscape(c, encodeQueryComponent)`: only ASCII letters, digits and the marks
`-`, `_`, `.`, `~` are left alone in a query component. -/
def shouldEscape (c : Byte) : Bool :=
  if (ch 'a' ≤ c ∧ c ≤ ch 'z') ∨ (ch 'A' ≤ c ∧ c ≤ ch 'Z') ∨ (ch '0' ≤ c ∧ c ≤ ch '9') then false
  else if c = ch '-' ∨ c = ch '_' ∨ c = ch '.' ∨ c = ch '~' then false
  else true

/-- The bytes `escape` writes for one input byte in `encodeQueryComponent` mode. -/
def escapeByte (c : Byte) : GoString :=
  if c = ch ' ' then [ch '+']
  else if shouldEscape c then [ch '%', upperhex.getD (c >>> 4).val 0, upperhex.getD (c &&& 15).val 0]
  else [c]

/-- `url.QueryEscape(s)`, i.e. `escape(s, encodeQueryComponent)`. -/
def QueryEscape (s : GoString) : GoString := s.flatMap escapeByte

/-- `ishex` of `net/url`. -/
def ishex (c : Byte) : Bool :=
  (ch '0' ≤ c ∧ c ≤ ch '9') ∨ (ch 'a' ≤ c ∧ c ≤ ch 'f') ∨ (ch 'A' ≤ c ∧ c ≤ ch 'F')

/-- `unhex` of `net/url` (only ever called on bytes for which `ishex` holds). -/
def unhex (c : Byte) : Byte :=
  if ch '0' ≤ c ∧ c ≤ ch '9' then c - ch '0'
  else if ch 'a' ≤ c ∧ c ≤ ch 'f' then c - ch 'a' + 10
  else if ch 'A' ≤ c ∧ c ≤ ch 'F' then c - ch 'A' + 10
  else 0

/-- `url.QueryUnescape(s)`, i.e. `unescape(s, encodeQueryComponent)`: `%XX` becomes the
byte `XX`, `+` becomes a space; a `%` not followed by two hex digits is an
`EscapeError` carrying the offending (at most three) bytes. -/
def QueryUnescape : GoString → Except GoString GoString
  | [] => .ok []
  | c :: rest =>
    if c = ch '%' then
      match rest with
      | a :: b :: rest2 =>
        if ishex a ∧ ishex b then
          match QueryUnescape rest2 with
          | .ok t => .ok (((unhex a <<< 4) ||| unhex b) :: t)
          | .error e => .error e
        else .error [c, a, b]
      | _ => .error (c :: rest)
    else
      match QueryUnescape rest with
      | .ok t => .ok ((if c = ch '+' then ch ' ' else c) :: t)
      | .error e => .error e

/-- `url.Values`, a `map[string][]string`, as an association list with distinct keys. -/
abbrev Values := List (GoString × List GoString)

/-- `v[key]` for a `Values` map: the values stored under `key` (nil when absent). -/
def Values.Get (v : Values) (key : GoString) : List GoString :=
  match v with
  | [] => []
  | (k, vs) :: rest => if k = key then vs else Values.Get rest key

/-- `v.Add(key, value)`: `v[key] = append(v[key], value)`. -/
def Values.Add (v : Values) (key value : GoString) : Values :=
  match v with
  | [] => [(key, [value])]
  | (k, vs) :: rest =>
    if k = key then (k, vs ++ [value]) :: rest else (k, vs) :: Values.Add rest key value

/-- Byte-wise lexicographic `a < b`, the order of Go strings. -/
def strLt : GoString → GoString → Bool
  | _, [] => false
  | [], _ :: _ => true
  | a :: as, b :: bs => if a < b then true else if b < a then false else strLt as bs

/-- Insertion of a key into a sorted list of keys. -/
def insertKey (k : GoString) : List GoString → List GoString
  | [] => [k]
  | x :: xs => if strLt x k then x :: insertKey k xs else k :: x :: xs

/-- `slices.Sort(keys)`: the keys in ascending string order. -/
def sortKeys (keys : List GoString) : List GoString := keys.foldr insertKey []

/-- `v.Encode()`: for every key in sorted order and every value under it, writes
`QueryEscape(key) = QueryEscape(value)`, with `&` before each pair but the first. -/
def Values.Encode (v : Values) : GoString :=
  if v.length = 0 then []
  else
    (sortKeys (v.map Prod.fst)).foldl
      (fun buf k =>
        let keyEscaped := QueryEscape k
        (v.Get k).foldl
          (fun buf x =>
            (if buf.length > 0 then buf ++ [ch '&'] else buf) ++ keyEscaped ++ [ch '='] ++ QueryEscape x)
          buf)
      []

/-- `strings.Cut(s, sep)` for a one-byte separator: the text before the first `sep`,
the text after it, and whether `sep` was found. -/
def Cut (s : GoString) (sep : Byte) : GoString × GoString × Bool :=
  match s with
  | [] => ([], [], false)
  | c :: rest =>
    if c = sep then ([], rest, true)
    else
      let r := Cut rest sep
      (c :: r.1, r.2.1, r.2.2)

/-- The error of `parseQuery` for a `;` in the query. -/
def semicolonError : GoString := lit "invalid semicolon separator in query"

/-- The loop of `parseQuery(m, query)`; each round removes one `&`-separated setting from
the front of `query`, so `fuel = len(query)` rounds always reach the empty query. -/
def parseQueryLoop : Nat → Values → Option GoString → GoString → Values × Option GoString
  | 0, m, err, _ => (m, err)
  | fuel + 1, m, err, query =>
    if query = [] then (m, err)
    else
      let c := Cut query (ch '&')
      let key := c.1
      let query := c.2.1
      if ch ';' ∈ key then parseQueryLoop fuel m (some semicolonError) query
      else if key = [] then parseQueryLoop fuel m err query
      else
        let kv := Cut key (ch '=')
        match QueryUnescape kv.1 with
        | .error e1 => parseQueryLoop fuel m (if err = none then some e1 else err) query
        | .ok key =>
          match QueryUnescape kv.2.1 with
          | .error e1 => parseQueryLoop fuel m (if err = none then some e1 else err) query
          | .ok value => parseQueryLoop fuel (Values.Add m key value) err query

/-- `url.ParseQuery(query)`: the parsed map and the first error met, if any. -/
def ParseQuery (query : GoString) : Values × Option GoString :=
  parseQueryLoop query.length [] none query

example : QueryUnescape (lit "a+b%26c%3Dd%25%C3%A9~%3B") = .ok (lit "a b&c=d%é~;") := by decide
example : ParseQuery (lit "b=1&a=x%20y&b=2&&c") =
    ([(lit "b", [lit "1", lit "2"]), (lit "a", [lit "x y"]), (lit "c", [lit ""])], none) := by decide

/-! ## `encoding/json`: decoding a parsed JSON value into Go values -/

/-- A JSON value as `encoding/json` scans it: a number keeps its literal text, an
object keeps its members in the order of the text. -/
inductive JValue where
  | null
  | bool (b : Bool)
  | number (text : GoString)
  | string (s : GoString)
  | array (elems : List JValue)
  | object (members : List (GoString × JValue))

/-- An `*json.UnmarshalTypeError`: the JSON value met and the Go type it could not be
stored in. -/
structure UnmarshalTypeError where
  Value : GoString
  GoType : GoString
deriving DecidableEq

/-- The text of an `UnmarshalTypeError` (without the struct-field qualifier that some
releases insert before "of type"). -/
def UnmarshalTypeError.Error (e : UnmarshalTypeError) : GoString :=
  lit "json: cannot unmarshal " ++ e.Value ++ lit " into Go value of type " ++ e.GoType

/-- The decoder's `savedError`: `saveError` keeps the first error only. -/
def saveError (saved new : Option UnmarshalTypeError) : Option UnmarshalTypeError :=
  match saved with
  | some e => some e
  | none => new

/-- How the decoder names a JSON value of the wrong kind in an `UnmarshalTypeError`. -/
def JValue.kindName : JValue → GoString
  | .null => lit "null"
  | .bool _ => lit "bool"
  | .number _ => lit "number"
  | .string _ => lit "string"
  | .array _ => lit "array"
  | .object _ => lit "object"

/-- Decoding into a Go `string`: a JSON string is stored, `null` leaves the destination
as it is, every other value is a type error that leaves the destination as it is. -/
def decodeString (v : JValue) (dest : GoString) : GoString × Option UnmarshalTypeError :=
  match v with
  | .string s => (s, none)
  | .null => (dest, none)
  | other => (dest, some ⟨other.kindName, lit "string"⟩)

/-- The value of a non-empty run of decimal digits. -/
def parseDigits : GoString → Option Nat
  | [] => none
  | ds => ds.foldl
      (fun acc d =>
        match acc with
        | none => none
        | some n => if ch '0' ≤ d ∧ d ≤ ch '9' then some (n * 10 + (d.val - 48)) else none)
      (some 0)

/-- `strconv.ParseInt(s, 10, 64)`: an optional sign and decimal digits, within the range
of `int64`; `none` for a syntax or range error. -/
def ParseInt64 (s : GoString) : Option Int :=
  let r : Option Int :=
    match s with
    | [] => none
    | c :: rest =>
      if c = ch '-' then (parseDigits rest).map (fun n => - (n : Int))
      else if c = ch '+' then (parseDigits rest).map (fun n => (n : Int))
      else (parseDigits s).map (fun n => (n : Int))
  match r with
  | some n => if -(2 : Int) ^ 63 ≤ n ∧ n < (2 : Int) ^ 63 then some n else none
  | none => none

/-- Decoding into a Go `int` (64 bits wide): a number literal that `ParseInt` accepts is
stored, `null` is ignored, anything else is a type error. -/
def decodeInt (v : JValue) (dest : Int) : Int × Option UnmarshalTypeError :=
  match v with
  | .number text =>
    match ParseInt64 text with
    | some n => (n, none)
    | none => (dest, some ⟨lit "number " ++ text, lit "int"⟩)
  | .null => (dest, none)
  | other => (dest, some ⟨other.kindName, lit "int"⟩)

/-- The `float64` values and `strconv.ParseFloat(text, 64)` on JSON number literals
(`none` when the literal is out of range). -/
structure Float64 (F : Type) where
  zero : F
  ParseFloat : GoString → Option F

/-- Decoding into a Go `float64`. -/
def decodeFloat {F : Type} (fl : Float64 F) (v : JValue) (dest : F) : F × Option UnmarshalTypeError :=
  match v with
  | .number text =>
    match fl.ParseFloat text with
    | some x => (x, none)
    | none => (dest, some ⟨lit "number " ++ text, lit "float64"⟩)
  | .null => (dest, none)
  | other => (dest, some ⟨other.kindName, lit "float64"⟩)

/-- `foldName`: the case-folded form of an object key used when no field name matches
it exactly. ASCII letters go to upper case, the Kelvin sign (E2 84 AA) folds to `K` and
the long s (C5 BF) to `S`; these are the only runes outside ASCII that fold into ASCII,
so every other byte at or above 0x80 is kept (the folded key then still differs from
every folded field name, all of which are ASCII). -/
def foldName : GoString → GoString
  | [] => []
  | [c] => [if ch 'a' ≤ c ∧ c ≤ ch 'z' then c - 32 else c]
  | [c, d] =>
    if c < 128 then (if ch 'a' ≤ c ∧ c ≤ ch 'z' then c - 32 else c) :: foldName [d]
    else if c = 0xC5 ∧ d = 0xBF then [ch 'S']
    else c :: foldName [d]
  | c :: d :: e :: rest =>
    if c < 128 then (if ch 'a' ≤ c ∧ c ≤ ch 'z' then c - 32 else c) :: foldName (d :: e :: rest)
    else if c = 0xC5 ∧ d = 0xBF then ch 'S' :: foldName (e :: rest)
    else if c = 0xE2 ∧ d = 0x84 ∧ e = 0xAA then ch 'K' :: foldName rest
    else c :: foldName (d :: e :: rest)

/-- A struct field as the decoder sees it: its JSON name and how a value is stored in it. -/
structure Field (T : Type) where
  name : GoString
  store : JValue → T → T × Option UnmarshalTypeError

/-- The field an object key selects: the one whose name is the key exactly, otherwise the
one whose folded name is the folded key. -/
def findField {T : Type} (fields : List (Field T)) (key : GoString) : Option (Field T) :=
  match fields.find? (fun f => f.name = key) with
  | some f => some f
  | none => fields.find? (fun f => foldName f.name = foldName key)

/-- Decoding the members of an object into a struct, in the order of the text: a member
whose key selects a field is decoded into that field, any other member is skipped. -/
def decodeMembers {T : Type} (fields : List (Field T)) :
    List (GoString × JValue) → T × Option UnmarshalTypeError → T × Option UnmarshalTypeError
  | [], acc => acc
  | (k, v) :: rest, (dest, saved) =>
    match findField fields k with
    | none => decodeMembers fields rest (dest, saved)
    | some f =>
      let r := f.store v dest
      decodeMembers fields rest (r.1, saveError saved r.2)

/-- Decoding into a struct: an object fills the fields, `null` is ignored, every other
value is a type error. -/
def decodeStruct {T : Type} (typeName : GoString) (fields : List (Field T)) (v : JValue) (dest : T) :
    T × Option UnmarshalTypeError :=
  match v with
  | .object members => decodeMembers fields members (dest, none)
  | .null => (dest, none)
  | other => (dest, some ⟨other.kindName, typeName⟩)

/-- Decoding the elements of an array into a slice: element `i` is decoded into the
slice's element `i` when the slice already has one, into a zero value otherwise. A slice
is non-empty here only when an object repeats a member; what spare capacity then holds
differs between Go releases and is taken to be zero. -/
def decodeElems {T : Type} (zero : T) (elem : JValue → T → T × Option UnmarshalTypeError) :
    List JValue → List T → List T × Option UnmarshalTypeError
  | [], _ => ([], none)
  | x :: xs, old =>
    let r := elem x (old.headD zero)
    let rs := decodeElems zero elem xs old.tail
    (r.1 :: rs.1, saveError r.2 rs.2)

/-- Decoding into a slice: an array replaces the contents, `null` sets the slice to
nil, every other value is a type error. A nil slice and an empty slice are both the
empty list. -/
def decodeSlice {T : Type} (typeName : GoString) (zero : T)
    (elem : JValue → T → T × Option UnmarshalTypeError) (v : JValue) (dest : List T) :
    List T × Option UnmarshalTypeError :=
  match v with
  | .array elems => decodeElems zero elem elems dest
  | .null => ([], none)
  | other => (dest, some ⟨other.kindName, typeName⟩)

/-- What `json.NewDecoder(body).Decode` reports. -/
inductive JsonError where
  | syntax_ (msg : GoString)
  | type_ (e : UnmarshalTypeError)
deriving DecidableEq

/-- The text of a decoding error. -/
def JsonError.Error : JsonError → GoString
  | .syntax_ msg => msg
  | .type_ e => e.Error

/-! ## The client of `lswb.go` -/

/-- The constant `apiURL`. -/
def apiURL : GoString := lit "https://api.leasewebultracdn.com"

/-- The struct `client`. -/
structure client where
  username : GoString
  password : GoString
  customerID : GoString
  ApiToken : GoString
deriving DecidableEq

/-- An `*http.Request` as the client builds it: method, URL, the header lines in the
order they were added, and the body text if there is one. -/
structure Request where
  method : GoString
  url : GoString
  header : List (GoString × GoString)
  body : Option GoString
deriving DecidableEq

/-- An `*http.Response` as the client reads it: the status code and the outcome of
scanning the first JSON value of the body (a syntax or read error, or the value). -/
structure Response where
  StatusCode : Int
  Body : Except GoString JValue

/-- The world outside the client: whether `http.NewRequest` accepts a method and URL
(`some err` when it does not) and what `http.DefaultClient.Do` answers to a request. -/
structure Env where
  NewRequest : GoString → GoString → Option GoString
  Do : Request → Except GoString Response

/-- The errors the client returns, one constructor per `fmt.Errorf` of the source. -/
inductive Err where
  | creatingRequest (cause : GoString)
  | makingRequest (cause : GoString)
  | status (code : Int)
  | decoding (cause : JsonError)
deriving DecidableEq

/-- The verb `%d` of `fmt` on an `int`. -/
def fmtInt (n : Int) : GoString :=
  match n with
  | .ofNat k => (Nat.toDigits 10 k).map ch
  | .negSucc k => ch '-' :: (Nat.toDigits 10 (k + 1)).map ch

/-- The message of an error, as the `fmt.Errorf` calls build it. -/
def Err.Error : Err → GoString
  | .creatingRequest cause => lit "error creating request: " ++ cause
  | .makingRequest cause => lit "error making request: " ++ cause
  | .status code => lit "non 2xx status: " ++ fmtInt code
  | .decoding cause => lit "error decoding response: " ++ cause.Error

/-- How a call ends: it returns to its caller, or `log.Fatal` logs a message and exits
the process. -/
inductive Exit (α : Type) where
  | returned (value : α)
  | exited (msg : GoString)
deriving DecidableEq

/-- One call of a client method: the `(method, url)` pairs given to `http.NewRequest`,
the requests given to `http.DefaultClient.Do`, the client afterwards, and how the
call ended. -/
structure Run (α : Type) where
  built : List (GoString × GoString)
  sent : List Request
  state : client
  exit : Exit α

/-- `http.MethodPost`. -/
def MethodPost : GoString := lit "POST"

/-- `http.MethodGet`. -/
def MethodGet : GoString := lit "GET"

/-- `http.StatusOK`. -/
def StatusOK : Int := 200

/-- The fields of `client` that `encoding/json` can see: only `ApiToken`, under the name
`access_token`; the other fields are unexported. -/
def clientFields : List (Field client) :=
  [⟨lit "access_token", fun v c => let r := decodeString v c.ApiToken; ({ c with ApiToken := r.1 }, r.2)⟩]

/-- The form `login` posts. -/
def loginForm (c : client) : Values :=
  Values.Add (Values.Add (Values.Add [] (lit "username") c.username) (lit "password") c.password)
    (lit "grant_type") (lit "password")

/-- The request `login` builds and sends. -/
def loginRequest (c : client) : Request :=
  ⟨MethodPost, apiURL ++ lit "/auth/token",
    [(lit "Content-Type", lit "application/x-www-form-urlencoded"),
     (lit "Accept", lit "application/json")],
    some (Values.Encode (loginForm c))⟩

/-- The method `(c *client) login(username, password string) error`. -/
def login (env : Env) (c : client) (username password : GoString) : Run (Option Err) :=
  if c.username = [] then ⟨[], [], c, .exited (lit "no username provided")⟩
  else if c.password = [] then ⟨[], [], c, .exited (lit "no password provided")⟩
  else
    let req := loginRequest c
    let url := req.url
    match env.NewRequest MethodPost url with
    | some err => ⟨[(MethodPost, url)], [], c, .returned (some (.creatingRequest err))⟩
    | none =>
      match env.Do req with
      | .error err => ⟨[(MethodPost, url)], [req], c, .returned (some (.makingRequest err))⟩
      | .ok res =>
        if res.StatusCode ≠ StatusOK then
          ⟨[(MethodPost, url)], [req], c, .returned (some (.status res.StatusCode))⟩
        else
          match res.Body with
          | .error msg =>
            ⟨[(MethodPost, url)], [req], c, .returned (some (.decoding (.syntax_ msg)))⟩
          | .ok v =>
            let r := decodeStruct (lit "main.client") clientFields v c
            match r.2 with
            | some e => ⟨[(MethodPost, url)], [req], r.1, .returned (some (.decoding (.type_ e)))⟩
            | none => ⟨[(MethodPost, url)], [req], r.1, .returned none⟩

/-- The inner struct of the value `s` in `getCustomerID`. -/
structure SelfInner where
  CustomerID : GoString
deriving DecidableEq

/-- The struct of the value `s` in `getCustomerID`. -/
structure SelfEnvelope where
  Response : SelfInner
deriving DecidableEq

/-- The fields of the inner struct of `s` in `getCustomerID`. -/
def selfInnerFields : List (Field SelfInner) :=
  [⟨lit "customerId", fun v d => let r := decodeString v d.CustomerID; ({ d with CustomerID := r.1 }, r.2)⟩]

/-- The fields of the struct of `s` in `getCustomerID`. -/
def selfEnvelopeFields : List (Field SelfEnvelope) :=
  [⟨lit "response", fun v d =>
      let r := decodeStruct (lit "struct \x7b CustomerID string \"json:\\\"customerId\\\"\" \x7d")
        selfInnerFields v d.Response
      ({ d with Response := r.1 }, r.2)⟩]

/-- The request `getCustomerID` builds and sends. -/
def selfRequest (c : client) : Request :=
  ⟨MethodGet, apiURL ++ lit "/self", [(lit "Authorization", lit "Bearer " ++ c.ApiToken)], none⟩

/-- The method `(c *client) getCustomerID() (string, error)`. -/
def getCustomerID (env : Env) (c : client) : Run (GoString × Option Err) :=
  let req := selfRequest c
  let url := req.url
  match env.NewRequest MethodGet url with
  | some err => ⟨[(MethodGet, url)], [], c, .returned ([], some (.creatingRequest err))⟩
  | none =>
    match env.Do req with
    | .error err => ⟨[(MethodGet, url)], [req], c, .returned ([], some (.makingRequest err))⟩
    | .ok res =>
      if res.StatusCode ≠ StatusOK then
        ⟨[(MethodGet, url)], [req], c, .returned ([], some (.status res.StatusCode))⟩
      else
        match res.Body with
        | .error msg =>
          ⟨[(MethodGet, url)], [req], c, .returned ([], some (.decoding (.syntax_ msg)))⟩
        | .ok v =>
          let r := decodeStruct
            (lit "struct \x7b Response struct \x7b CustomerID string \"json:\\\"customerId\\\"\" \x7d \"json:\\\"response\\\"\" \x7d")
            selfEnvelopeFields v (⟨⟨[]⟩⟩ : SelfEnvelope)
          match r.2 with
          | some e => ⟨[(MethodGet, url)], [req], c, .returned ([], some (.decoding (.type_ e)))⟩
          | none =>
            let c2 := { c with customerID := r.1.Response.CustomerID }
            ⟨[(MethodGet, url)], [req], c2, .returned (c2.customerID, none)⟩

/-- The struct `distributionGroup`. -/
structure distributionGroup where
  Name : GoString
  ID : GoString
  Domain : GoString
deriving DecidableEq

/-- The fields of `distributionGroup`. -/
def distributionGroupFields : List (Field distributionGroup) :=
  [⟨lit "name", fun v d => let r := decodeString v d.Name; ({ d with Name := r.1 }, r.2)⟩,
   ⟨lit "id", fun v d => let r := decodeString v d.ID; ({ d with ID := r.1 }, r.2)⟩,
   ⟨lit "domain", fun v d => let r := decodeString v d.Domain; ({ d with Domain := r.1 }, r.2)⟩]

/-- The fields of the struct of the value `s` in `getDistributionGroups`, whose one
field `Response` is a `[]distributionGroup`. -/
def groupsEnvelopeFields : List (Field (List distributionGroup)) :=
  [⟨lit "response",
    decodeSlice (lit "[]main.distributionGroup") (⟨[], [], []⟩ : distributionGroup)
      (decodeStruct (lit "main.distributionGroup") distributionGroupFields)⟩]

/-- The request `getDistributionGroups` builds and sends. -/
def groupsRequest (c : client) (customerID : GoString) : Request :=
  ⟨MethodGet, apiURL ++ lit "/" ++ customerID ++ lit "/config/distributiongroups",
    [(lit "Authorization", lit "Bearer " ++ c.ApiToken)], none⟩

/-- The method `(c *client) getDistributionGroups(customerID string) ([]distributionGroup, error)`. -/
def getDistributionGroups (env : Env) (c : client) (customerID : GoString) :
    Run (List distributionGroup × Option Err) :=
  let req := groupsRequest c customerID
  let url := req.url
  match env.NewRequest MethodGet url with
  | some err => ⟨[(MethodGet, url)], [], c, .returned ([], some (.creatingRequest err))⟩
  | none =>
    match env.Do req with
    | .error err => ⟨[(MethodGet, url)], [req], c, .returned ([], some (.makingRequest err))⟩
    | .ok res =>
      if res.StatusCode ≠ StatusOK then
        ⟨[(MethodGet, url)], [req], c, .returned ([], some (.status res.StatusCode))⟩
      else
        match res.Body with
        | .error msg =>
          ⟨[(MethodGet, url)], [req], c, .returned ([], some (.decoding (.syntax_ msg)))⟩
        | .ok v =>
          let r := decodeStruct
            (lit "struct \x7b Response []main.distributionGroup \"json:\\\"response\\\"\" \x7d")
            groupsEnvelopeFields v ([] : List distributionGroup)
          match r.2 with
          | some e => ⟨[(MethodGet, url)], [req], c, .returned ([], some (.decoding (.type_ e)))⟩
          | none => ⟨[(MethodGet, url)], [req], c, .returned (r.1, none)⟩

/-- The struct `point`. -/
structure point (F : Type) where
  Value : F
  Timestamp : Int
deriving DecidableEq

/-- The struct `metric`. -/
structure metric (F : Type) where
  GroupID : GoString
  Target : GoString
  Points : List (point F)
deriving DecidableEq

/-- The fields of `point`. -/
def pointFields {F : Type} (fl : Float64 F) : List (Field (point F)) :=
  [⟨lit "value", fun v d => let r := decodeFloat fl v d.Value; ({ d with Value := r.1 }, r.2)⟩,
   ⟨lit "timestamp", fun v d => let r := decodeInt v d.Timestamp; ({ d with Timestamp := r.1 }, r.2)⟩]

/-- The fields of `metric`: `GroupID` has no tag and goes by its Go name. -/
def metricFields {F : Type} (fl : Float64 F) : List (Field (metric F)) :=
  [⟨lit "GroupID", fun v d => let r := decodeString v d.GroupID; ({ d with GroupID := r.1 }, r.2)⟩,
   ⟨lit "target", fun v d => let r := decodeString v d.Target; ({ d with Target := r.1 }, r.2)⟩,
   ⟨lit "points", fun v d =>
      let r := decodeSlice (lit "[]main.point") (⟨fl.zero, 0⟩ : point F)
        (decodeStruct (lit "main.point") (pointFields fl)) v d.Points
      ({ d with Points := r.1 }, r.2)⟩]

/-- The fields of the struct of the value `mr` in `gatherMetrics`, whose one field
`Response` is a `[]metric`. -/
def metricsEnvelopeFields {F : Type} (fl : Float64 F) : List (Field (List (metric F))) :=
  [⟨lit "response",
    decodeSlice (lit "[]main.metric") (⟨[], [], []⟩ : metric F)
      (decodeStruct (lit "main.metric") (metricFields fl))⟩]

/-- The form `gatherMetrics` builds, one `form.Add` of the source per line. -/
def gatherForm (distributionGroupID : GoString) : Values :=
  let form : Values := []
  let form := Values.Add form (lit "start") (lit "-30min")
  let form := Values.Add form (lit "end") (lit "-20min")
  let form := Values.Add form (lit "target") (Sprintf (lit "alias(aggregate(sum(%s.*.*.*.bytesdelivered),'5min', 'sum', 'true'), 'bytesdelivered')") [distributionGroupID])
  let form := Values.Add form (lit "target") (Sprintf (lit "alias(aggregate(sum(%s.*.*.*.requestscount),'5min', 'sum', 'true'), 'requestscount')") [distributionGroupID])
  let form := Values.Add form (lit "target") (Sprintf (lit "alias(aggregate(sum(%s.*.*.*.bandwidthbps),'5min', 'sum', 'true'), 'bandwidthbps')") [distributionGroupID])
  let form := Values.Add form (lit "target") (Sprintf (lit "alias(aggregate(sum(%s.*.*.*.cachehit_requests),'5min', 'sum', 'true'), 'cachehit_requests')") [distributionGroupID])
  let form := Values.Add form (lit "target") (Sprintf (lit "alias(aggregate(sum(%s.*.*.*.statuscode_2xx_count),'5min', 'sum', 'true'), 'statuscode_2xx_count')") [distributionGroupID])
  let form := Values.Add form (lit "target") (Sprintf (lit "alias(aggregate(sum(%s.*.*.*.statuscode_4xx_count),'5min', 'sum', 'true'), 'statuscode_4xx_count')") [distributionGroupID])
  let form := Values.Add form (lit "target") (Sprintf (lit "alias(aggregate(sum(%s.*.*.*.statuscode_5xx_count),'5min', 'sum', 'true'), 'statuscode_5xx_count')") [distributionGroupID])
  form

/-- The request `gatherMetrics` builds and sends. -/
def queryRequest (c : client) (distributionGroupID : GoString) : Request :=
  ⟨MethodPost, apiURL ++ lit "/" ++ c.customerID ++ lit "/query",
    [(lit "Content-Type", lit "application/x-www-form-urlencoded"),
     (lit "Accept", lit "application/json"),
     (lit "Authorization", lit "Bearer " ++ c.ApiToken)],
    some (Values.Encode (gatherForm distributionGroupID))⟩

/-- The method `(c *client) gatherMetrics(distributionGroupID string) ([]metric, error)`. -/
def gatherMetrics {F : Type} (fl : Float64 F) (env : Env) (c : client) (distributionGroupID : GoString) :
    Run (List (metric F) × Option Err) :=
  let req := queryRequest c distributionGroupID
  let url := req.url
  match env.NewRequest MethodPost url with
  | some err => ⟨[(MethodPost, url)], [], c, .returned ([], some (.creatingRequest err))⟩
  | none =>
    match env.Do req with
    | .error err => ⟨[(MethodPost, url)], [req], c, .returned ([], some (.makingRequest err))⟩
    | .ok res =>
      if res.StatusCode ≠ StatusOK then
        ⟨[(MethodPost, url)], [req], c, .returned ([], some (.status res.StatusCode))⟩
      else
        match res.Body with
        | .error msg =>
          ⟨[(MethodPost, url)], [req], c, .returned ([], some (.decoding (.syntax_ msg)))⟩
        | .ok v =>
          let r := decodeStruct
            (lit "struct \x7b Response []main.metric \"json:\\\"response\\\"\" \x7d")
            (metricsEnvelopeFields fl) v ([] : List (metric F))
          match r.2 with
          | some e => ⟨[(MethodPost, url)], [req], c, .returned ([], some (.decoding (.type_ e)))⟩
          | none => ⟨[(MethodPost, url)], [req], c, .returned (r.1, none)⟩

example : ParseInt64 (lit "-9223372036854775808") = some (-9223372036854775808) := by decide
example : ParseInt64 (lit "1.5") = none := by decide
example : (Err.status 404).Error = lit "non 2xx status: 404" := by decide

/-! ## Notions used in the statements -/

/-- The seven metric names, in the order of the source. -/
def metricNames : List GoString :=
  [lit "bytesdelivered", lit "requestscount", lit "bandwidthbps", lit "cachehit_requests",
   lit "statuscode_2xx_count", lit "statuscode_4xx_count", lit "statuscode_5xx_count"]

/-- The `target` values of the form of `gatherMetrics`, as stored in the map. -/
def targets (distributionGroupID : GoString) : List GoString :=
  Values.Get (gatherForm distributionGroupID) (lit "target")

/-- The pattern of the specification for one target:
`alias(aggregate(sum(<groupID>.*.*.*.<metricName>), '5min', 'sum', 'true'), '<metricName>')`. -/
def specTarget (groupID metricName : GoString) : GoString :=
  lit "alias(aggregate(sum(" ++ (groupID ++ (lit ".*.*.*." ++ (metricName ++
    (lit "), '5min', 'sum', 'true'), '" ++ (metricName ++ lit "')")))))

/-- The pattern the source follows: as `specTarget`, without a blank before `'5min'`. -/
def codeTarget (groupID metricName : GoString) : GoString :=
  lit "alias(aggregate(sum(" ++ (groupID ++ (lit ".*.*.*." ++ (metricName ++
    (lit "),'5min', 'sum', 'true'), '" ++ (metricName ++ lit "')")))))

/-- The closing alias clause `'m')` of a target for the metric name `m`. -/
def aliasClause (metricName : GoString) : GoString :=
  lit "'" ++ (metricName ++ lit "')")

/-- What follows the group identifier in a target built by the source. -/
def codeTargetTail (metricName : GoString) : GoString :=
  lit ".*.*.*." ++ (metricName ++ (lit "),'5min', 'sum', 'true'), '" ++ (metricName ++ lit "')")))

/-- One setting `QueryEscape(key)=QueryEscape(value)` of an encoded form. -/
def encodePair (p : GoString × GoString) : GoString :=
  QueryEscape p.1 ++ ch '=' :: QueryEscape p.2

/-- The settings of a list of key/value pairs joined by `&`. -/
def encodePairs : List (GoString × GoString) → GoString
  | [] => []
  | [p] => encodePair p
  | p :: q :: rest => encodePair p ++ ch '&' :: encodePairs (q :: rest)

/-- The key/value pairs of a form in the order `Encode` writes them. -/
def pairsOf (v : Values) : List (GoString × GoString) :=
  (sortKeys (v.map Prod.fst)).flatMap (fun k => (Values.Get v k).map (fun x => (k, x)))

/-- What `Encode` appends to its buffer for one pair. -/
def writePair (buf : GoString) (p : GoString × GoString) : GoString :=
  (if buf.length > 0 then buf ++ [ch '&'] else buf) ++ QueryEscape p.1 ++ [ch '='] ++ QueryEscape p.2

/-- A stand-in for `float64` in closed examples: a value is named by a number literal
that denotes it, and every literal converts. -/
def literalFloats : Float64 GoString := ⟨lit "0", fun text => some text⟩

/-- No series object of a response body has a member whose key matches the Go field
name `GroupID` (by name or under case folding). -/
def noGroupIDMember : JValue → Prop
  | .object ms =>
    ∀ kv ∈ ms, ∀ xs, kv.2 = .array xs → ∀ x ∈ xs, ∀ ms2, x = .object ms2 →
      ∀ kv2 ∈ ms2, foldName kv2.1 ≠ foldName (lit "GroupID")
  | _ => True

/-- A series as the provider writes it: the target and, per point, the literals of the
value and of the timestamp. -/
structure SeriesText where
  target : GoString
  points : List (GoString × GoString)

/-- The JSON object `{"value": v, "timestamp": t}` of one point. -/
def pointJSON (p : GoString × GoString) : JValue :=
  .object [(lit "value", .number p.1), (lit "timestamp", .number p.2)]

/-- The JSON object `{"target": ..., "points": [...]}` of one series. -/
def seriesJSON (s : SeriesText) : JValue :=
  .object [(lit "target", .string s.target), (lit "points", .array (s.points.map pointJSON))]

/-- The JSON body `{"response": [...]}` of a query answer. -/
def responseJSON (ss : List SeriesText) : JValue :=
  .object [(lit "response", .array (ss.map seriesJSON))]

/-- The point a pair of literals denotes. -/
def pointOf {F : Type} (fl : Float64 F) (p : GoString × GoString) : point F :=
  ⟨(fl.ParseFloat p.1).getD fl.zero, (ParseInt64 p.2).getD 0⟩

/-- The metric a series of the response denotes; its `GroupID` is empty. -/
def metricOf {F : Type} (fl : Float64 F) (s : SeriesText) : metric F :=
  ⟨[], s.target, s.points.map (pointOf fl)⟩

/-- `v` is the value of the one member of the object `ms` whose key matches `name`, by
name or under case folding; no other member of `ms` matches `name`. -/
def onlyMember (name : GoString) (ms : List (GoString × JValue)) (v : JValue) : Prop :=
  ∃ pre k post, ms = pre ++ (k, v) :: post ∧ foldName k = foldName name ∧
    ∀ kv ∈ pre ++ post, foldName kv.1 ≠ foldName name

/-- The entry `{"timestamp":5,"unit":"B","value":1.5}` of a points array. -/
def reorderedPoint : List (GoString × JValue) :=
  [(lit "timestamp", .number (lit "5")), (lit "unit", .string (lit "B")),
   (lit "value", .number (lit "1.5"))]

/-- The series `{"points":[...],"target":"bytesdelivered"}` with the entry above. -/
def reorderedSeries : List (GoString × JValue) :=
  [(lit "points", .array [.object reorderedPoint]), (lit "target", .string (lit "bytesdelivered"))]

/-- The body `{"meta":1,"response":[...]}` with the series above: the documented members
in another order, next to further members. -/
def reorderedAnswer : List (GoString × JValue) :=
  [(lit "meta", .number (lit "1")), (lit "response", .array [.object reorderedSeries])]

/-! ## The targets of the query (C2, C9) -/

theorem targets_eq_map (g : GoString) : targets g = metricNames.map (codeTarget g) := by
  rfl

theorem codeTarget_eq (g m : GoString) :
    codeTarget g m = (lit "alias(aggregate(sum(" ++ g) ++ codeTargetTail m := by
  simp [codeTarget, codeTargetTail, List.append_assoc]

theorem suffix_append_iff_of_length_le {α : Type} (s a b : List α) (h : s.length ≤ b.length) :
    s <:+ a ++ b ↔ s <:+ b := by
  constructor
  · intro hs
    exact List.suffix_of_suffix_length_le hs (List.suffix_append a b) h
  · intro hs
    exact hs.trans (List.suffix_append a b)

set_option maxRecDepth 100000 in
theorem alias_tail_facts :
    ∀ m ∈ metricNames, ∀ m2 ∈ metricNames,
      (aliasClause m2).length ≤ (codeTargetTail m).length ∧
        (aliasClause m2 <:+ codeTargetTail m ↔ m2 = m) := by
  decide

theorem count_name_eq_one :
    ∀ m ∈ metricNames, List.countP (fun m2 => decide (m = m2)) metricNames = 1 := by
  decide

theorem alias_suffix_iff (g : GoString) (m : GoString) (hm : m ∈ metricNames)
    (m2 : GoString) (hm2 : m2 ∈ metricNames) :
    aliasClause m2 <:+ codeTarget g m ↔ m2 = m := by
  have h := alias_tail_facts m hm m2 hm2
  rw [codeTarget_eq, suffix_append_iff_of_length_le _ _ _ h.1]
  exact h.2

/-! ## Escaping and parsing of the form body (C1) -/

theorem upperhex_eq :
    upperhex = [48, 49, 50, 51, 52, 53, 54, 55, 56, 57, 65, 66, 67, 68, 69, 70] := by
  decide

theorem escapeByte_all :
    ∀ c : Byte,
      (escapeByte c).all (fun x => decide (x ≠ ch '&' ∧ x ≠ ch '=' ∧ x ≠ ch ';')) = true := by
  decide!

theorem escapeByte_no_separator (c : Byte) (x : Byte) (hx : x ∈ escapeByte c) :
    x ≠ ch '&' ∧ x ≠ ch '=' ∧ x ≠ ch ';' := by
  have h := escapeByte_all c
  rw [List.all_eq_true] at h
  simpa using h x hx

theorem QueryEscape_no_separator (s : GoString) (x : Byte) (hx : x ∈ QueryEscape s) :
    x ≠ ch '&' ∧ x ≠ ch '=' ∧ x ≠ ch ';' := by
  unfold QueryEscape at hx
  obtain ⟨c, -, hc⟩ := List.mem_flatMap.1 hx
  exact escapeByte_no_separator c x hc

theorem escapeByte_hex :
    ∀ c : Byte,
      ishex (upperhex.getD (c >>> 4).val 0) = true ∧
        ishex (upperhex.getD (c &&& 15).val 0) = true ∧
          ((unhex (upperhex.getD (c >>> 4).val 0) <<< 4) |||
            unhex (upperhex.getD (c &&& 15).val 0)) = c := by
  rw [upperhex_eq]
  decide!

theorem shouldEscape_false_plain :
    ∀ c : Byte, shouldEscape c = false → c ≠ ch '%' ∧ c ≠ ch '+' := by
  decide!

theorem QueryUnescape_escapeByte (c : Byte) (rest : GoString) :
    QueryUnescape (escapeByte c ++ rest) =
      match QueryUnescape rest with
      | .ok t => .ok (c :: t)
      | .error e => .error e := by
  unfold escapeByte
  by_cases hsp : c = ch ' '
  · subst hsp
    have h1 : ch '+' ≠ ch '%' := by decide
    simp only [if_true, List.singleton_append]
    rw [QueryUnescape.eq_def]
    simp only [h1, if_false, if_true]
  · simp only [hsp, if_false]
    cases hse : shouldEscape c
    · have hp := shouldEscape_false_plain c hse
      simp only [Bool.false_eq_true, if_false, List.singleton_append]
      rw [QueryUnescape.eq_def]
      simp only [hp.1, hp.2, if_false]
    · have hh := escapeByte_hex c
      simp only [if_true, List.cons_append, List.nil_append]
      rw [QueryUnescape]
      simp only [if_true, hh.1, hh.2.1, hh.2.2, and_self]

theorem QueryUnescape_QueryEscape (s : GoString) : QueryUnescape (QueryEscape s) = .ok s := by
  induction s with
  | nil => rfl
  | cons c s ih =>
    have h : QueryEscape (c :: s) = escapeByte c ++ QueryEscape s := by
      simp [QueryEscape]
    rw [h, QueryUnescape_escapeByte, ih]

theorem Cut_of_not_mem (a : GoString) (sep : Byte) (h : sep ∉ a) : Cut a sep = (a, [], false) := by
  induction a with
  | nil => rfl
  | cons c a ih =>
    have hc : c ≠ sep := fun e => h (by simp [e])
    have ha : sep ∉ a := fun e => h (by simp [e])
    simp [Cut, hc, ih ha]

theorem Cut_append_sep (a b : GoString) (sep : Byte) (h : sep ∉ a) :
    Cut (a ++ sep :: b) sep = (a, b, true) := by
  induction a with
  | nil => simp [Cut]
  | cons c a ih =>
    have hc : c ≠ sep := fun e => h (by simp [e])
    have ha : sep ∉ a := fun e => h (by simp [e])
    simp [Cut, hc, ih ha]

theorem encodePair_no_amp (p : GoString × GoString) : ch '&' ∉ encodePair p := by
  intro h
  unfold encodePair at h
  rcases List.mem_append.1 h with h | h
  · exact (QueryEscape_no_separator _ _ h).1 rfl
  · rcases List.mem_cons.1 h with h | h
    · exact absurd h (by decide)
    · exact (QueryEscape_no_separator _ _ h).1 rfl

theorem encodePair_no_semicolon (p : GoString × GoString) : ch ';' ∉ encodePair p := by
  intro h
  unfold encodePair at h
  rcases List.mem_append.1 h with h | h
  · exact (QueryEscape_no_separator _ _ h).2.2 rfl
  · rcases List.mem_cons.1 h with h | h
    · exact absurd h (by decide)
    · exact (QueryEscape_no_separator _ _ h).2.2 rfl

theorem encodePair_ne_nil (p : GoString × GoString) : encodePair p ≠ [] := by
  unfold encodePair
  simp

theorem Cut_encodePair (p : GoString × GoString) :
    Cut (encodePair p) (ch '=') = (QueryEscape p.1, QueryEscape p.2, true) := by
  unfold encodePair
  exact Cut_append_sep _ _ _ (fun h => (QueryEscape_no_separator _ _ h).2.1 rfl)

/-- One round of the loop on a query that starts with the setting of `p`. -/
theorem parseQueryLoop_step (fuel : Nat) (m : Values) (err : Option GoString)
    (p : GoString × GoString) (query rest : GoString)
    (hcut : Cut query (ch '&') = (encodePair p, rest, true) ∨
      Cut query (ch '&') = (encodePair p, rest, false)) :
    parseQueryLoop (fuel + 1) m err query = parseQueryLoop fuel (Values.Add m p.1 p.2) err rest := by
  have hne : query ≠ [] := by
    intro h
    subst h
    rcases hcut with h | h
    · simp [Cut] at h
    · simp [Cut] at h
      exact encodePair_ne_nil p h.1
  have h1 : (Cut query (ch '&')).1 = encodePair p := by rcases hcut with h | h <;> rw [h]
  have h2 : (Cut query (ch '&')).2.1 = rest := by rcases hcut with h | h <;> rw [h]
  rw [parseQueryLoop]
  simp only [hne, if_false, h1, h2, encodePair_no_semicolon p, encodePair_ne_nil p,
    Cut_encodePair, QueryUnescape_QueryEscape]

theorem parseQueryLoop_nil (fuel : Nat) (m : Values) (err : Option GoString) :
    parseQueryLoop fuel m err [] = (m, err) := by
  cases fuel <;> simp [parseQueryLoop]

theorem parseQueryLoop_encodePairs (ps : List (GoString × GoString)) :
    ∀ (fuel : Nat) (m : Values) (err : Option GoString), (encodePairs ps).length ≤ fuel →
      parseQueryLoop fuel m err (encodePairs ps) =
        (ps.foldl (fun m p => Values.Add m p.1 p.2) m, err) := by
  induction ps with
  | nil =>
    intro fuel m err _
    exact parseQueryLoop_nil fuel m err
  | cons p ps ih =>
    intro fuel m err hfuel
    cases ps with
    | nil =>
      have hlen : 0 < (encodePair p).length := List.length_pos.2 (encodePair_ne_nil p)
      simp only [encodePairs] at hfuel ⊢
      obtain ⟨f, rfl⟩ : ∃ f, fuel = f + 1 := ⟨fuel - 1, by omega⟩
      rw [parseQueryLoop_step f m err p _ []
        (Or.inr (Cut_of_not_mem _ _ (encodePair_no_amp p)))]
      simp [parseQueryLoop_nil]
    | cons q rest =>
      simp only [encodePairs, List.length_append, List.length_cons] at hfuel
      obtain ⟨f, rfl⟩ : ∃ f, fuel = f + 1 := ⟨fuel - 1, by omega⟩
      have hstep := parseQueryLoop_step f m err p
        (encodePair p ++ ch '&' :: encodePairs (q :: rest)) (encodePairs (q :: rest))
        (Or.inl (Cut_append_sep _ _ _ (encodePair_no_amp p)))
      simp only [encodePairs, List.foldl_cons]
      rw [hstep]
      have hrec := ih f (Values.Add m p.1 p.2) err (by omega)
      simpa using hrec

theorem ParseQuery_encodePairs (ps : List (GoString × GoString)) :
    ParseQuery (encodePairs ps) = (ps.foldl (fun m p => Values.Add m p.1 p.2) [], none) :=
  parseQueryLoop_encodePairs ps _ [] none (Nat.le_refl _)

theorem foldl_writePair (ps : List (GoString × GoString)) :
    ∀ buf : GoString,
      ps.foldl writePair buf =
        if buf = [] then encodePairs ps
        else if ps = [] then buf else buf ++ ch '&' :: encodePairs ps := by
  induction ps with
  | nil => intro buf; by_cases h : buf = [] <;> simp [h, encodePairs]
  | cons p ps ih =>
    intro buf
    have hw : writePair buf p ≠ [] := by simp [writePair]
    rw [List.foldl_cons, ih, if_neg hw]
    by_cases hb : buf = []
    · subst hb
      cases ps with
      | nil => simp [writePair, encodePairs, encodePair]
      | cons q rest => simp [writePair, encodePairs, encodePair]
    · have hlen : buf.length > 0 := List.length_pos.2 hb
      cases ps with
      | nil => simp [writePair, encodePairs, encodePair, hb, hlen]
      | cons q rest => simp [writePair, encodePairs, encodePair, hb, hlen]

theorem foldl_flatMap_pairs (v : Values) (keys : List GoString) :
    ∀ buf : GoString,
      keys.foldl
          (fun buf k =>
            let keyEscaped := QueryEscape k
            (Values.Get v k).foldl
              (fun buf x =>
                (if buf.length > 0 then buf ++ [ch '&'] else buf) ++ keyEscaped ++ [ch '='] ++
                  QueryEscape x)
              buf)
          buf =
        (keys.flatMap (fun k => (Values.Get v k).map (fun x => (k, x)))).foldl writePair buf := by
  induction keys with
  | nil => intro buf; rfl
  | cons k keys ih =>
    intro buf
    rw [List.foldl_cons, List.flatMap_cons, List.foldl_append, ← ih, List.foldl_map]
    rfl

theorem Encode_eq_encodePairs (v : Values) : Values.Encode v = encodePairs (pairsOf v) := by
  unfold Values.Encode
  by_cases h : v.length = 0
  · have hv : v = [] := List.length_eq_zero.1 h
    subst hv
    rfl
  · rw [if_neg h, foldl_flatMap_pairs, foldl_writePair]
    simp [pairsOf]

theorem ParseQuery_Encode (v : Values) :
    ParseQuery (Values.Encode v) =
      ((pairsOf v).foldl (fun m p => Values.Add m p.1 p.2) [], none) := by
  rw [Encode_eq_encodePairs, ParseQuery_encodePairs]

theorem gatherForm_eq (g : GoString) :
    gatherForm g =
      [(lit "start", [lit "-30min"]), (lit "end", [lit "-20min"]), (lit "target", targets g)] := by
  rfl

theorem pairsOf_gatherForm (g : GoString) :
    (pairsOf (gatherForm g)).foldl (fun m p => Values.Add m p.1 p.2) [] =
      [(lit "end", [lit "-20min"]), (lit "start", [lit "-30min"]), (lit "target", targets g)] := by
  rfl

/-- C2, as stated, fails: for the group `dg-42` none of the seven targets built by
`gatherMetrics` is the string of the specification's pattern. -/
theorem C2_targets_differ_from_spec_pattern :
    List.zipWith (fun t m => decide (t = specTarget (lit "dg-42") m)) (targets (lit "dg-42")) metricNames
      = [false, false, false, false, false, false, false] := by
  decide

/-- C2, amended: for every group identifier the seven targets are, in the order of the
metric names, exactly `alias(aggregate(sum(g.*.*.*.m),'5min', 'sum', 'true'), 'm')`. -/
theorem C2_targets_follow_code_pattern (g : GoString) :
    targets g = metricNames.map (codeTarget g) := by
  rfl

/-- C9: for every group identifier `g` there are seven targets; each contains `g`; each ends
with the alias clause `'m')` of one of the seven metric names; every metric name is
the alias of exactly one target; and a target whose alias is `m` carries the same `m`
inside its `sum(g.*.*.*.m)` path. -/
theorem C9_targets_contain_group_and_alias (g : GoString) :
    (targets g).length = 7 ∧
    (∀ t ∈ targets g, g <:+: t) ∧
    (∀ t ∈ targets g, ∃ m ∈ metricNames, aliasClause m <:+ t) ∧
    (∀ m ∈ metricNames, List.countP (fun t => decide (aliasClause m <:+ t)) (targets g) = 1) ∧
    (∀ t ∈ targets g, ∀ m ∈ metricNames, aliasClause m <:+ t →
      (lit "sum(" ++ (g ++ (lit ".*.*.*." ++ (m ++ lit ")")))) <:+: t) := by
  rw [targets_eq_map]
  refine ⟨by simp [metricNames], ?_, ?_, ?_, ?_⟩
  · intro t ht
    obtain ⟨m, -, rfl⟩ := List.mem_map.1 ht
    exact ⟨lit "alias(aggregate(sum(", codeTargetTail m, by rw [codeTarget_eq]⟩
  · intro t ht
    obtain ⟨m, hm, rfl⟩ := List.mem_map.1 ht
    exact ⟨m, hm, (alias_suffix_iff g m hm m hm).2 rfl⟩
  · intro m hm
    rw [List.countP_map]
    have hcongr : List.countP ((fun t => decide (aliasClause m <:+ t)) ∘ codeTarget g) metricNames
        = List.countP (fun m2 => decide (m = m2)) metricNames := by
      apply List.countP_congr
      intro m2 hm2
      simp only [Function.comp, decide_eq_true_eq]
      exact alias_suffix_iff g m2 hm2 m hm
    rw [hcongr]
    exact count_name_eq_one m hm
  · intro t ht m hm hsuf
    obtain ⟨m2, hm2, rfl⟩ := List.mem_map.1 ht
    have hmm : m = m2 := (alias_suffix_iff g m2 hm2 m hm).1 hsuf
    subst hmm
    refine ⟨lit "alias(aggregate(", lit ",'5min', 'sum', 'true'), '" ++ (m ++ lit "')"), ?_⟩
    simp [codeTarget, List.append_assoc]
    rfl

/-- C1: for every group identifier `g` the body of the request of `gatherMetrics` is a
form text that `url.ParseQuery` parses without error into exactly three keys (listed in
the order they occur in the body): `end` with the one value `-20min`, `start` with the
one value `-30min`, and `target` with the seven target strings built for `g`, unescaped
and in the order of the source. -/
theorem C1_form_body_parses_back (c : client) (g : GoString) :
    (queryRequest c g).body = some (Values.Encode (gatherForm g)) ∧
    ParseQuery (Values.Encode (gatherForm g)) =
      ([(lit "end", [lit "-20min"]), (lit "start", [lit "-30min"]), (lit "target", targets g)],
        none) ∧
    (targets g).length = 7 := by
  refine ⟨rfl, ?_, ?_⟩
  · rw [ParseQuery_Encode, pairsOf_gatherForm]
  · rw [targets_eq_map]
    rfl

/-! ## Status handling (C3) -/

theorem fmtInt_infix_status (n : Int) : fmtInt n <:+: (Err.status n).Error :=
  ⟨lit "non 2xx status: ", [], by simp [Err.Error]⟩

/-- C3: when `http.NewRequest` accepts the request and the server answers it with a
status code `n` other than 200 (201, 204, 3xx, ... alike), each of `getCustomerID`,
`getDistributionGroups` and `gatherMetrics` returns no data and the status error of `n`,
whose message contains the decimal rendering of `n`; the client is left as it was, and
the outcome does not mention the body, which is not decoded. Conversely a status error
with code `k` comes back only when the server answered with status `k` and `k` is not 200. -/
theorem C3_non_200_is_status_error {F : Type} (fl : Float64 F) (env : Env) (c : client)
    (customerID g : GoString) :
    (∀ res, env.NewRequest MethodGet (selfRequest c).url = none →
        env.Do (selfRequest c) = .ok res → res.StatusCode ≠ 200 →
        (getCustomerID env c).exit = .returned ([], some (.status res.StatusCode)) ∧
        (getCustomerID env c).state = c ∧
        fmtInt res.StatusCode <:+: (Err.status res.StatusCode).Error) ∧
    (∀ res, env.NewRequest MethodGet (groupsRequest c customerID).url = none →
        env.Do (groupsRequest c customerID) = .ok res → res.StatusCode ≠ 200 →
        (getDistributionGroups env c customerID).exit = .returned ([], some (.status res.StatusCode)) ∧
        (getDistributionGroups env c customerID).state = c ∧
        fmtInt res.StatusCode <:+: (Err.status res.StatusCode).Error) ∧
    (∀ res, env.NewRequest MethodPost (queryRequest c g).url = none →
        env.Do (queryRequest c g) = .ok res → res.StatusCode ≠ 200 →
        (gatherMetrics fl env c g).exit = .returned ([], some (.status res.StatusCode)) ∧
        (gatherMetrics fl env c g).state = c ∧
        fmtInt res.StatusCode <:+: (Err.status res.StatusCode).Error) ∧
    (∀ x k, (getCustomerID env c).exit = .returned (x, some (.status k)) →
        k ≠ 200 ∧ ∃ res, env.Do (selfRequest c) = .ok res ∧ res.StatusCode = k) ∧
    (∀ x k, (getDistributionGroups env c customerID).exit = .returned (x, some (.status k)) →
        k ≠ 200 ∧ ∃ res, env.Do (groupsRequest c customerID) = .ok res ∧ res.StatusCode = k) ∧
    (∀ x k, (gatherMetrics fl env c g).exit = .returned (x, some (.status k)) →
        k ≠ 200 ∧ ∃ res, env.Do (queryRequest c g) = .ok res ∧ res.StatusCode = k) := by
  refine ⟨?_, ?_, ?_, ?_, ?_, ?_⟩
  · intro res hnew hdo hst
    have hst2 : res.StatusCode ≠ StatusOK := hst
    simp only [getCustomerID, hnew, hdo, hst2, ne_eq, not_false_eq_true, if_true, true_and]
    exact fmtInt_infix_status _
  · intro res hnew hdo hst
    have hst2 : res.StatusCode ≠ StatusOK := hst
    simp only [getDistributionGroups, hnew, hdo, hst2, ne_eq, not_false_eq_true, if_true, true_and]
    exact fmtInt_infix_status _
  · intro res hnew hdo hst
    have hst2 : res.StatusCode ≠ StatusOK := hst
    simp only [gatherMetrics, hnew, hdo, hst2, ne_eq, not_false_eq_true, if_true, true_and]
    exact fmtInt_infix_status _
  · intro x k h
    unfold getCustomerID at h
    simp only at h
    split at h
    · simp at h
    · split at h
      · simp at h
      · rename_i res hdo
        split at h
        · rename_i hst
          simp only [Exit.returned.injEq, Prod.mk.injEq, Option.some.injEq, Err.status.injEq] at h
          exact ⟨h.2 ▸ hst, res, hdo, h.2⟩
        · split at h
          · simp at h
          · split at h <;> simp at h
  · intro x k h
    unfold getDistributionGroups at h
    simp only at h
    split at h
    · simp at h
    · split at h
      · simp at h
      · rename_i res hdo
        split at h
        · rename_i hst
          simp only [Exit.returned.injEq, Prod.mk.injEq, Option.some.injEq, Err.status.injEq] at h
          exact ⟨h.2 ▸ hst, res, hdo, h.2⟩
        · split at h
          · simp at h
          · split at h <;> simp at h
  · intro x k h
    unfold gatherMetrics at h
    simp only at h
    split at h
    · simp at h
    · split at h
      · simp at h
      · rename_i res hdo
        split at h
        · rename_i hst
          simp only [Exit.returned.injEq, Prod.mk.injEq, Option.some.injEq, Err.status.injEq] at h
          exact ⟨h.2 ▸ hst, res, hdo, h.2⟩
        · split at h
          · simp at h
          · split at h <;> simp at h

/-! ## Decoding into structs: general facts -/

theorem findField_mem {T : Type} (fields : List (Field T)) (key : GoString) (f : Field T)
    (h : findField fields key = some f) : f ∈ fields := by
  unfold findField at h
  split at h
  · rename_i g hg
    cases h
    exact List.mem_of_find?_eq_some hg
  · exact List.mem_of_find?_eq_some h

theorem findField_selects {T : Type} (fields : List (Field T)) (key : GoString) (f : Field T)
    (h : findField fields key = some f) : foldName f.name = foldName key := by
  unfold findField at h
  split at h
  · rename_i g hg
    cases h
    have := List.find?_some hg
    simp only [decide_eq_true_eq] at this
    rw [this]
  · have := List.find?_some h
    simpa using this

theorem decodeMembers_invariant_mem {T : Type} (P : T → Prop) (fields : List (Field T)) :
    ∀ (ms : List (GoString × JValue)) (acc : T × Option UnmarshalTypeError),
      (∀ kv ∈ ms, ∀ f, findField fields kv.1 = some f → ∀ d, P d → P (f.store kv.2 d).1) →
      P acc.1 → P (decodeMembers fields ms acc).1 := by
  intro ms
  induction ms with
  | nil => intro acc _ h; simpa [decodeMembers] using h
  | cons kv ms ih =>
    intro acc hP h
    obtain ⟨k, v⟩ := kv
    obtain ⟨dest, saved⟩ := acc
    have hrest : ∀ kv ∈ ms, ∀ f, findField fields kv.1 = some f → ∀ d, P d → P (f.store kv.2 d).1 :=
      fun kv hkv => hP kv (by simp [hkv])
    rw [decodeMembers]
    split
    · exact ih _ hrest h
    · rename_i f hf
      exact ih _ hrest (hP (k, v) (by simp) f hf dest h)

theorem decodeMembers_invariant {T : Type} (P : T → Prop) (fields : List (Field T))
    (hP : ∀ f ∈ fields, ∀ v d, P d → P (f.store v d).1) :
    ∀ (ms : List (GoString × JValue)) (acc : T × Option UnmarshalTypeError),
      P acc.1 → P (decodeMembers fields ms acc).1 := by
  intro ms
  induction ms with
  | nil => intro acc h; simpa [decodeMembers] using h
  | cons kv ms ih =>
    intro acc h
    obtain ⟨k, v⟩ := kv
    obtain ⟨dest, saved⟩ := acc
    rw [decodeMembers]
    split
    · exact ih _ h
    · rename_i f hf
      exact ih _ (hP f (findField_mem _ _ _ hf) v dest h)

theorem decodeMembers_skip {T : Type} (fields : List (Field T)) :
    ∀ (ms : List (GoString × JValue)) (acc : T × Option UnmarshalTypeError),
      (∀ kv ∈ ms, findField fields kv.1 = none) → decodeMembers fields ms acc = acc := by
  intro ms
  induction ms with
  | nil => intro acc _; simp [decodeMembers]
  | cons kv ms ih =>
    intro acc h
    obtain ⟨k, v⟩ := kv
    obtain ⟨dest, saved⟩ := acc
    have hk : findField fields k = none := h (k, v) (by simp)
    rw [decodeMembers]
    simp only [hk]
    exact ih _ (fun kv hkv => h kv (by simp [hkv]))

theorem decodeMembers_append {T : Type} (fields : List (Field T)) :
    ∀ (ms ms2 : List (GoString × JValue)) (acc : T × Option UnmarshalTypeError),
      decodeMembers fields (ms ++ ms2) acc = decodeMembers fields ms2 (decodeMembers fields ms acc) := by
  intro ms
  induction ms with
  | nil => intro ms2 acc; simp [decodeMembers]
  | cons kv ms ih =>
    intro ms2 acc
    obtain ⟨k, v⟩ := kv
    obtain ⟨dest, saved⟩ := acc
    rw [List.cons_append, decodeMembers, decodeMembers]
    split <;> exact ih _ _

theorem decodeStruct_invariant {T : Type} (P : T → Prop) (typeName : GoString)
    (fields : List (Field T)) (hP : ∀ f ∈ fields, ∀ v d, P d → P (f.store v d).1)
    (v : JValue) (dest : T) (h : P dest) : P (decodeStruct typeName fields v dest).1 := by
  cases v <;> simp only [decodeStruct] <;> try exact h
  exact decodeMembers_invariant P fields hP _ _ h

/-! ## `login` (C4, C7, C10) -/

theorem login_state_credentials (env : Env) (c : client) (u p : GoString) :
    (login env c u p).state.username = c.username ∧
      (login env c u p).state.password = c.password ∧
        (login env c u p).state.customerID = c.customerID := by
  have hdec : ∀ v, (decodeStruct (lit "main.client") clientFields v c).1.username = c.username ∧
      (decodeStruct (lit "main.client") clientFields v c).1.password = c.password ∧
      (decodeStruct (lit "main.client") clientFields v c).1.customerID = c.customerID := by
    intro v
    refine decodeStruct_invariant
      (fun d : client => d.username = c.username ∧ d.password = c.password ∧
        d.customerID = c.customerID) _ _ ?_ v c ⟨rfl, rfl, rfl⟩
    intro f hf v d hd
    simp only [clientFields, List.mem_singleton] at hf
    subst hf
    exact hd
  unfold login
  split
  · exact ⟨rfl, rfl, rfl⟩
  · split
    · exact ⟨rfl, rfl, rfl⟩
    · simp only
      split
      · exact ⟨rfl, rfl, rfl⟩
      · split
        · exact ⟨rfl, rfl, rfl⟩
        · split
          · exact ⟨rfl, rfl, rfl⟩
          · split
            · exact ⟨rfl, rfl, rfl⟩
            · rename_i v hv
              split <;> exact hdec v

theorem login_sent (env : Env) (c : client) (u p : GoString) :
    ∀ r ∈ (login env c u p).sent, r = loginRequest c := by
  intro r hr
  unfold login at hr
  split at hr
  · simp at hr
  · split at hr
    · simp at hr
    · simp only at hr
      split at hr
      · simp at hr
      · split at hr
        · simpa using hr
        · split at hr
          · simpa using hr
          · split at hr
            · simpa using hr
            · split at hr <;> simpa using hr

theorem loginForm_pairs (c : client) :
    pairsOf (loginForm c) =
      [(lit "grant_type", lit "password"), (lit "password", c.password),
        (lit "username", c.username)] := by
  rfl

theorem loginRequest_body (c : client) :
    (loginRequest c).body =
      some (lit "grant_type=password&password=" ++
        (QueryEscape c.password ++ (lit "&username=" ++ QueryEscape c.username))) := by
  simp only [loginRequest, Encode_eq_encodePairs, loginForm_pairs, encodePairs, encodePair,
    Option.some.injEq]
  have h1 : QueryEscape (lit "grant_type") = lit "grant_type" := by decide
  have h2 : QueryEscape (lit "password") = lit "password" := by decide
  have h3 : QueryEscape (lit "username") = lit "username" := by decide
  rw [h1, h2, h3]
  simp only [List.append_assoc, List.cons_append]
  rfl

/-- C4, as stated, fails: with an empty stored username (or an empty stored password)
`login` does not return an error to its caller; the call ends in `log.Fatal`, which
exits the process. -/
theorem C4_login_exits_instead_of_returning :
    (login ⟨fun _ _ => none, fun _ => .error []⟩ ⟨[], lit "secret", [], []⟩ (lit "u") (lit "p")).exit
        = .exited (lit "no username provided") ∧
    (login ⟨fun _ _ => none, fun _ => .error []⟩ ⟨lit "user", [], [], []⟩ (lit "u") (lit "p")).exit
        = .exited (lit "no password provided") ∧
    (∀ e, (login ⟨fun _ _ => none, fun _ => .error []⟩ ⟨[], lit "secret", [], []⟩ (lit "u") (lit "p")).exit
        ≠ .returned e) := by
  refine ⟨by decide, by decide, ?_⟩
  intro e h
  have h0 : (login ⟨fun _ _ => none, fun _ => .error []⟩ ⟨[], lit "secret", [], []⟩
      (lit "u") (lit "p")).exit = .exited (lit "no username provided") := by decide
  rw [h0] at h
  cases h

/-- C4, amended: when the stored username or the stored password is empty, `login` ends
in `log.Fatal` (message `no username provided`, or `no password provided` when only the
password is empty), which exits the process; this happens before any request is built
or sent, and the client is left as it was. -/
theorem C4_login_fatal_before_any_request (env : Env) (c : client) (username password : GoString)
    (h : c.username = [] ∨ c.password = []) :
    ((login env c username password).exit =
        .exited (if c.username = [] then lit "no username provided" else lit "no password provided")) ∧
    (login env c username password).built = [] ∧
    (login env c username password).sent = [] ∧
    (login env c username password).state = c := by
  unfold login
  by_cases hu : c.username = []
  · simp [hu]
  · have hp : c.password = [] := h.resolve_left hu
    simp [hu, hp]

/-- Witness of C4's amended statement: a client with an empty username. -/
theorem C4_login_fatal_witness :
    ((⟨[], lit "secret", [], []⟩ : client).username = [] ∨
        (⟨[], lit "secret", [], []⟩ : client).password = []) ∧
    (login ⟨fun _ _ => none, fun _ => .error []⟩ ⟨[], lit "secret", [], []⟩ (lit "u") (lit "p")).exit =
        .exited (lit "no username provided") ∧
    (login ⟨fun _ _ => none, fun _ => .error []⟩ ⟨[], lit "secret", [], []⟩ (lit "u") (lit "p")).sent = [] :=
  ⟨Or.inl rfl,
    (C4_login_fatal_before_any_request ⟨fun _ _ => none, fun _ => .error []⟩
      ⟨[], lit "secret", [], []⟩ (lit "u") (lit "p") (Or.inl rfl)).1,
    (C4_login_fatal_before_any_request ⟨fun _ _ => none, fun _ => .error []⟩
      ⟨[], lit "secret", [], []⟩ (lit "u") (lit "p") (Or.inl rfl)).2.2.1⟩

/-- C10: `login` ignores its two arguments. For every world, client and two argument
pairs the whole call (credential check, requests built and sent, error, client
afterwards) is the same; the body of any request it sends is the form encoding of the
stored password and username with `grant_type=password`; with an empty stored username
or password it does not proceed, whatever the arguments; and the stored username and
password are the same after the call. -/
theorem C10_login_ignores_its_arguments (env : Env) (c : client) (u1 p1 u2 p2 : GoString) :
    login env c u1 p1 = login env c u2 p2 ∧
    (∀ r ∈ (login env c u1 p1).sent,
      r.body = some (Values.Encode (loginForm c)) ∧
      r.body = some (lit "grant_type=password&password=" ++
        (QueryEscape c.password ++ (lit "&username=" ++ QueryEscape c.username)))) ∧
    ((c.username = [] ∨ c.password = []) →
      (∃ msg, (login env c u1 p1).exit = .exited msg) ∧ (login env c u1 p1).sent = []) ∧
    (login env c u1 p1).state.username = c.username ∧
    (login env c u1 p1).state.password = c.password := by
  refine ⟨rfl, ?_, ?_, (login_state_credentials env c u1 p1).1,
    (login_state_credentials env c u1 p1).2.1⟩
  · intro r hr
    rw [login_sent env c u1 p1 r hr]
    exact ⟨rfl, loginRequest_body c⟩
  · intro h
    unfold login
    by_cases hu : c.username = []
    · simp [hu]
    · have hp : c.password = [] := h.resolve_left hu
      simp [hu, hp]

/-! ## `getCustomerID` (C5) and the token of `login` (C7) -/

theorem findField_single {T : Type} (f : Field T) (key : GoString) :
    findField [f] key = if foldName f.name = foldName key then some f else none := by
  unfold findField
  by_cases h1 : f.name = key
  · simp [List.find?, h1]
  · by_cases h2 : foldName f.name = foldName key <;> simp [List.find?, h1, h2]

/-- C5, as stated, fails: for a 200 answer to `GET /self` with the body `{}`, and for one
with the body `{"response":{}}`, `getCustomerID` returns the empty identifier with a nil
error and stores the empty identifier in the client. -/
theorem C5_missing_customerId_returns_empty :
    (getCustomerID ⟨fun _ _ => none, fun _ => .ok ⟨200, .ok (.object [])⟩⟩
        ⟨lit "user", lit "secret", lit "C1", lit "tok"⟩).exit = .returned ([], none) ∧
    (getCustomerID ⟨fun _ _ => none, fun _ => .ok ⟨200, .ok (.object [])⟩⟩
        ⟨lit "user", lit "secret", lit "C1", lit "tok"⟩).state.customerID = [] ∧
    (getCustomerID ⟨fun _ _ => none, fun _ => .ok ⟨200, .ok (.object [(lit "response", .object [])])⟩⟩
        ⟨lit "user", lit "secret", lit "C1", lit "tok"⟩).exit = .returned ([], none) ∧
    (getCustomerID ⟨fun _ _ => none, fun _ => .ok ⟨200, .ok (.object [(lit "response", .object [])])⟩⟩
        ⟨lit "user", lit "secret", lit "C1", lit "tok"⟩).state.customerID = [] := by
  decide

theorem decodeMembers_self_missing :
    ∀ ms : List (GoString × JValue),
      (∀ kv ∈ ms, foldName kv.1 = foldName (lit "response") →
        kv.2 = .null ∨ ∃ ms2, kv.2 = .object ms2 ∧
          ∀ kv2 ∈ ms2, foldName kv2.1 ≠ foldName (lit "customerId")) →
      decodeMembers selfEnvelopeFields ms ((⟨⟨[]⟩⟩ : SelfEnvelope), none) = (⟨⟨[]⟩⟩, none) := by
  intro ms
  induction ms with
  | nil => intro _; rfl
  | cons kv ms ih =>
    intro h
    obtain ⟨k, v⟩ := kv
    have hrest := ih (fun kv hkv => h kv (by simp [hkv]))
    rw [decodeMembers]
    simp only [selfEnvelopeFields, findField_single]
    by_cases hk : foldName (lit "response") = foldName k
    · simp only [hk, if_true]
      rcases h (k, v) (by simp) hk.symm with hv | ⟨ms2, hv, hms2⟩
      · simp only at hv
        subst hv
        simpa [decodeStruct, saveError, selfEnvelopeFields] using hrest
      · simp only at hv
        subst hv
        have hskip : decodeMembers selfInnerFields ms2 ((⟨[]⟩ : SelfInner), none) = (⟨[]⟩, none) := by
          apply decodeMembers_skip
          intro kv2 hkv2
          simp only [selfInnerFields, findField_single]
          rw [if_neg]
          exact fun e => hms2 kv2 hkv2 e.symm
        simpa [decodeStruct, saveError, selfEnvelopeFields, hskip] using hrest
    · simp only [hk, if_false]
      simpa [selfEnvelopeFields] using hrest

/-- C5, amended: for every 200 answer to `GET /self` whose body is a JSON object in which
every member matching `response` is `null` or an object without a member matching
`customerId` (so also `{}` and `{"response":{}}`), `getCustomerID` returns the empty
identifier with a nil error and sets the client's `customerID` to the empty string. -/
theorem C5_missing_customerId_is_accepted (env : Env) (c : client)
    (ms : List (GoString × JValue))
    (hnew : env.NewRequest MethodGet (selfRequest c).url = none)
    (hdo : env.Do (selfRequest c) = .ok ⟨200, .ok (.object ms)⟩)
    (hms : ∀ kv ∈ ms, foldName kv.1 = foldName (lit "response") →
      kv.2 = .null ∨ ∃ ms2, kv.2 = .object ms2 ∧
        ∀ kv2 ∈ ms2, foldName kv2.1 ≠ foldName (lit "customerId")) :
    (getCustomerID env c).exit = .returned ([], none) ∧
    (getCustomerID env c).state = { c with customerID := [] } := by
  simp [getCustomerID, hnew, hdo, StatusOK, decodeStruct, decodeMembers_self_missing ms hms]

/-- Witness of C5's amended statement: the body `{"other":1,"response":{}}`. -/
theorem C5_missing_customerId_witness :
    (getCustomerID
        ⟨fun _ _ => none, fun _ => .ok ⟨200, .ok (.object
          [(lit "other", .number (lit "1")), (lit "response", .object [])])⟩⟩
        ⟨lit "user", lit "secret", lit "C1", lit "tok"⟩).exit = .returned ([], none) ∧
    (getCustomerID
        ⟨fun _ _ => none, fun _ => .ok ⟨200, .ok (.object
          [(lit "other", .number (lit "1")), (lit "response", .object [])])⟩⟩
        ⟨lit "user", lit "secret", lit "C1", lit "tok"⟩).state =
      ⟨lit "user", lit "secret", [], lit "tok"⟩ :=
  C5_missing_customerId_is_accepted
    ⟨fun _ _ => none, fun _ => .ok ⟨200, .ok (.object
      [(lit "other", .number (lit "1")), (lit "response", .object [])])⟩⟩
    ⟨lit "user", lit "secret", lit "C1", lit "tok"⟩
    [(lit "other", .number (lit "1")), (lit "response", .object [])]
    rfl rfl
    (by
      intro kv hkv hk
      simp only [List.mem_cons, List.mem_singleton, List.not_mem_nil, or_false] at hkv
      rcases hkv with rfl | rfl
      · exact absurd hk (by decide)
      · exact Or.inr ⟨[], rfl, fun kv2 h2 => absurd h2 (List.not_mem_nil _)⟩)

/-- C7, as stated, fails: for a 200 answer to the token request with the body `{}`,
`login` returns a nil error and the client keeps the token it had (here the empty one). -/
theorem C7_absent_token_is_success :
    (login ⟨fun _ _ => none, fun _ => .ok ⟨200, .ok (.object [])⟩⟩
        ⟨lit "user", lit "secret", [], []⟩ (lit "user") (lit "secret")).exit = .returned none ∧
    (login ⟨fun _ _ => none, fun _ => .ok ⟨200, .ok (.object [])⟩⟩
        ⟨lit "user", lit "secret", [], []⟩ (lit "user") (lit "secret")).state.ApiToken = [] := by
  decide

/-- C7, amended: for every 200 answer to the token request whose body is a JSON object,
(a) if exactly one member matches `access_token` (by name, or under case folding) and
its value is the string `t`, `login` returns a nil error and the stored `ApiToken` is
`t` afterwards, the rest of the client unchanged; (b) if no member matches
`access_token`, `login` returns a nil error and the client, its previous token
included, is unchanged. -/
theorem C7_login_token_stored_or_kept (env : Env) (c : client) (username password : GoString)
    (ms : List (GoString × JValue))
    (hu : c.username ≠ []) (hp : c.password ≠ [])
    (hnew : env.NewRequest MethodPost (loginRequest c).url = none)
    (hdo : env.Do (loginRequest c) = .ok ⟨200, .ok (.object ms)⟩) :
    (∀ pre k t post, ms = pre ++ (k, .string t) :: post →
      foldName k = foldName (lit "access_token") →
      (∀ kv ∈ pre ++ post, foldName kv.1 ≠ foldName (lit "access_token")) →
      (login env c username password).exit = .returned none ∧
      (login env c username password).state = { c with ApiToken := t }) ∧
    ((∀ kv ∈ ms, foldName kv.1 ≠ foldName (lit "access_token")) →
      (login env c username password).exit = .returned none ∧
      (login env c username password).state = c) := by
  have hnone : ∀ (l : List (GoString × JValue)),
      (∀ kv ∈ l, foldName kv.1 ≠ foldName (lit "access_token")) →
      ∀ kv ∈ l, findField clientFields kv.1 = none := by
    intro l hl kv hkv
    simp only [clientFields, findField_single]
    rw [if_neg]
    exact fun e => hl kv hkv e.symm
  constructor
  · intro pre k t post hms hk hrest
    have hpre := hnone pre (fun kv hkv => hrest kv (by simp [hkv]))
    have hpost := hnone post (fun kv hkv => hrest kv (by simp [hkv]))
    have hdec : decodeMembers clientFields ms (c, none) = ({ c with ApiToken := t }, none) := by
      rw [hms, decodeMembers_append, decodeMembers_skip _ _ _ hpre, decodeMembers]
      simp only [clientFields, findField_single, hk, if_true, decodeString, saveError]
      exact decodeMembers_skip _ _ _ hpost
    simp [login, hu, hp, hnew, hdo, StatusOK, decodeStruct, hdec]
  · intro hms
    have hdec : decodeMembers clientFields ms (c, none) = (c, none) :=
      decodeMembers_skip _ _ _ (hnone ms hms)
    simp [login, hu, hp, hnew, hdo, StatusOK, decodeStruct, hdec]

/-! ## The metrics returned by `gatherMetrics` (C6, C8) -/

theorem decodeElems_all {T : Type} (P : T → Prop) (zero : T)
    (elem : JValue → T → T × Option UnmarshalTypeError) (hzero : P zero) :
    ∀ (xs : List JValue) (old : List T),
      (∀ x ∈ xs, ∀ d, P d → P (elem x d).1) → (∀ d ∈ old, P d) →
      ∀ d ∈ (decodeElems zero elem xs old).1, P d := by
  intro xs
  induction xs with
  | nil => intro old _ _ d hd; simp [decodeElems] at hd
  | cons x xs ih =>
    intro old helem hold d hd
    have hhead : P (old.headD zero) := by
      cases old with
      | nil => exact hzero
      | cons o os => exact hold o (by simp)
    have htail : ∀ d ∈ old.tail, P d := fun d hd => hold d (List.mem_of_mem_tail hd)
    simp only [decodeElems, List.mem_cons] at hd
    rcases hd with rfl | hd
    · exact helem x (by simp) _ hhead
    · exact ih old.tail (fun y hy => helem y (by simp [hy])) htail d hd

theorem metric_decode_keeps_GroupID {F : Type} (fl : Float64 F) (x : JValue)
    (hx : ∀ ms2, x = .object ms2 → ∀ kv2 ∈ ms2, foldName kv2.1 ≠ foldName (lit "GroupID"))
    (d : metric F) (hd : d.GroupID = []) :
    (decodeStruct (lit "main.metric") (metricFields fl) x d).1.GroupID = [] := by
  cases x with
  | object ms2 =>
    simp only [decodeStruct]
    refine decodeMembers_invariant_mem (fun m : metric F => m.GroupID = []) _ ms2 _ ?_ hd
    intro kv hkv f hf m hm
    have hsel := findField_selects _ _ _ hf
    have hmem := findField_mem _ _ _ hf
    simp only [metricFields, List.mem_cons, List.mem_singleton, List.not_mem_nil, or_false] at hmem
    rcases hmem with rfl | rfl | rfl
    · exact absurd hsel.symm (hx ms2 rfl kv hkv)
    · exact hm
    · exact hm
  | null => simpa [decodeStruct] using hd
  | bool b => simpa [decodeStruct] using hd
  | number t => simpa [decodeStruct] using hd
  | string t => simpa [decodeStruct] using hd
  | array xs => simpa [decodeStruct] using hd

theorem envelope_decode_keeps_GroupID {F : Type} (fl : Float64 F) (v : JValue)
    (hv : noGroupIDMember v) :
    ∀ m ∈ (decodeStruct (lit "struct \x7b Response []main.metric \"json:\\\"response\\\"\" \x7d")
      (metricsEnvelopeFields fl) v ([] : List (metric F))).1, m.GroupID = [] := by
  cases v with
  | object ms =>
    simp only [decodeStruct]
    refine decodeMembers_invariant_mem (fun l : List (metric F) => ∀ m ∈ l, m.GroupID = [])
      _ ms _ ?_ (by simp)
    intro kv hkv f hf l hl
    have hmem := findField_mem _ _ _ hf
    simp only [metricsEnvelopeFields, List.mem_singleton] at hmem
    subst hmem
    simp only
    cases hkv2 : kv.2 with
    | array xs =>
      simp only [decodeSlice]
      apply decodeElems_all (fun m : metric F => m.GroupID = [])
      · rfl
      · intro x hx d hd
        exact metric_decode_keeps_GroupID fl x (fun ms2 hms2 => hv kv hkv xs hkv2 x hx ms2 hms2) d hd
      · exact hl
    | null => simp [decodeSlice]
    | bool b => simpa [decodeSlice] using hl
    | number t => simpa [decodeSlice] using hl
    | string t => simpa [decodeSlice] using hl
    | object o => simpa [decodeSlice] using hl
  | null => simp [decodeStruct]
  | bool b => simp [decodeStruct]
  | number t => simp [decodeStruct]
  | string t => simp [decodeStruct]
  | array xs => simp [decodeStruct]

/-- C6, as stated, fails: for the group `dg-42` and a 200 answer with the body
`{"response":[{"target":"bytesdelivered","points":[]}]}` the one metric returned by
`gatherMetrics` has an empty `GroupID`, not `dg-42`. -/
theorem C6_group_id_is_not_attached :
    (gatherMetrics literalFloats
        ⟨fun _ _ => none, fun _ => .ok ⟨200, .ok (.object [(lit "response", .array
          [.object [(lit "target", .string (lit "bytesdelivered")), (lit "points", .array [])]])])⟩⟩
        ⟨lit "user", lit "secret", lit "C1", lit "tok"⟩ (lit "dg-42")).exit
      = .returned ([⟨[], lit "bytesdelivered", []⟩], none) ∧
    ([] : GoString) ≠ lit "dg-42" := by
  decide

theorem gatherMetrics_GroupID_empty {F : Type} (fl : Float64 F) (env : Env) (c : client)
    (g : GoString)
    (hbody : ∀ res v, env.Do (queryRequest c g) = .ok res → res.Body = .ok v → noGroupIDMember v) :
    ∀ ms e, (gatherMetrics fl env c g).exit = .returned (ms, e) → ∀ m ∈ ms, m.GroupID = [] := by
  intro ms e h
  unfold gatherMetrics at h
  simp only at h
  split at h
  · simp only [Exit.returned.injEq, Prod.mk.injEq] at h
    rw [← h.1]; simp
  · split at h
    · simp only [Exit.returned.injEq, Prod.mk.injEq] at h
      rw [← h.1]; simp
    · rename_i res hdo
      split at h
      · simp only [Exit.returned.injEq, Prod.mk.injEq] at h
        rw [← h.1]; simp
      · split at h
        · simp only [Exit.returned.injEq, Prod.mk.injEq] at h
          rw [← h.1]; simp
        · rename_i v hv
          have hkeep := envelope_decode_keeps_GroupID fl v (hbody res v hdo hv)
          split at h
          · simp only [Exit.returned.injEq, Prod.mk.injEq] at h
            rw [← h.1]; simp
          · simp only [Exit.returned.injEq, Prod.mk.injEq] at h
            rw [← h.1]
            exact hkeep

theorem gatherMetrics_returns {F : Type} (fl : Float64 F) (env : Env) (c : client)
    (g : GoString) : ∃ ms e, (gatherMetrics fl env c g).exit = .returned (ms, e) := by
  unfold gatherMetrics
  simp only
  split
  · exact ⟨_, _, rfl⟩
  · split
    · exact ⟨_, _, rfl⟩
    · split
      · exact ⟨_, _, rfl⟩
      · split
        · exact ⟨_, _, rfl⟩
        · split <;> exact ⟨_, _, rfl⟩

/-- C6, amended: `gatherMetrics` never fills `GroupID` from its argument. For every
group identifier `g` and every answer whose body has no series object with a member
matching `GroupID`, `gatherMetrics(g)` returns and every metric it returns has the
empty `GroupID`. -/
theorem C6_group_id_stays_empty {F : Type} (fl : Float64 F) (env : Env) (c : client)
    (g : GoString)
    (hbody : ∀ res v, env.Do (queryRequest c g) = .ok res → res.Body = .ok v → noGroupIDMember v) :
    ∃ ms e, (gatherMetrics fl env c g).exit = .returned (ms, e) ∧ ∀ m ∈ ms, m.GroupID = [] := by
  obtain ⟨ms, e, h⟩ := gatherMetrics_returns fl env c g
  exact ⟨ms, e, h, gatherMetrics_GroupID_empty fl env c g hbody ms e h⟩

/-- Witness of C6's amended statement: the group `dg-42` and a body with one series. -/
theorem C6_group_id_stays_empty_witness :
    ∃ ms e,
      (gatherMetrics literalFloats
        ⟨fun _ _ => none, fun _ => .ok ⟨200, .ok (.object [(lit "response", .array
          [.object [(lit "target", .string (lit "requestscount")), (lit "points", .array [])]])])⟩⟩
        ⟨lit "user", lit "secret", lit "C1", lit "tok"⟩ (lit "dg-42")).exit = .returned (ms, e) ∧
      ∀ m ∈ ms, m.GroupID = [] :=
  C6_group_id_stays_empty literalFloats
    ⟨fun _ _ => none, fun _ => .ok ⟨200, .ok (.object [(lit "response", .array
      [.object [(lit "target", .string (lit "requestscount")), (lit "points", .array [])]])])⟩⟩
    ⟨lit "user", lit "secret", lit "C1", lit "tok"⟩ (lit "dg-42")
    (by
      intro res v hdo hv
      simp only [Except.ok.injEq] at hdo
      subst hdo
      simp only [Except.ok.injEq] at hv
      subst hv
      intro kv hkv xs hxs x hx ms2 hms2 kv2 hkv2
      simp only [List.mem_singleton] at hkv
      subst hkv
      simp only [JValue.array.injEq] at hxs
      subst hxs
      simp only [List.mem_singleton] at hx
      subst hx
      simp only [JValue.object.injEq] at hms2
      subst hms2
      simp only [List.mem_cons, List.mem_singleton, List.not_mem_nil, or_false] at hkv2
      rcases hkv2 with rfl | rfl <;> decide)

/-! ### Responses of the documented shape -/

theorem decodeElems_map {T A : Type} (zero : T)
    (elem : JValue → T → T × Option UnmarshalTypeError) (f : A → JValue) (g : A → T) :
    ∀ xs : List A, (∀ x ∈ xs, elem (f x) zero = (g x, none)) →
      decodeElems zero elem (xs.map f) [] = (xs.map g, none) := by
  intro xs
  induction xs with
  | nil => intro _; rfl
  | cons x xs ih =>
    intro h
    have hx := h x (by simp)
    have hrest := ih (fun y hy => h y (by simp [hy]))
    simp only [List.map_cons, decodeElems, List.headD_nil, List.tail_nil, hx, hrest, saveError]

theorem decode_pointJSON {F : Type} (fl : Float64 F) (p : GoString × GoString)
    (hv : (fl.ParseFloat p.1).isSome) (ht : (ParseInt64 p.2).isSome) :
    decodeStruct (lit "main.point") (pointFields fl) (pointJSON p) ⟨fl.zero, 0⟩ =
      (pointOf fl p, none) := by
  obtain ⟨x, hx⟩ := Option.isSome_iff_exists.1 hv
  obtain ⟨n, hn⟩ := Option.isSome_iff_exists.1 ht
  have h1 : findField (pointFields fl) (lit "value") = (pointFields fl)[0]? := by rfl
  have h2 : findField (pointFields fl) (lit "timestamp") = (pointFields fl)[1]? := by rfl
  simp only [pointJSON, decodeStruct, decodeMembers, h1, h2]
  simp only [pointFields, pointOf, hx, hn, List.getElem?_cons_zero, List.getElem?_cons_succ,
    decodeFloat, decodeInt, saveError, Option.getD_some]

theorem decode_seriesJSON {F : Type} (fl : Float64 F) (s : SeriesText)
    (h : ∀ p ∈ s.points, (fl.ParseFloat p.1).isSome ∧ (ParseInt64 p.2).isSome) :
    decodeStruct (lit "main.metric") (metricFields fl) (seriesJSON s) ⟨[], [], []⟩ =
      (metricOf fl s, none) := by
  have h1 : findField (metricFields fl) (lit "target") = (metricFields fl)[1]? := by rfl
  have h2 : findField (metricFields fl) (lit "points") = (metricFields fl)[2]? := by rfl
  have hpts := decodeElems_map (⟨fl.zero, 0⟩ : point F)
    (decodeStruct (lit "main.point") (pointFields fl)) pointJSON (pointOf fl) s.points
    (fun p hp => decode_pointJSON fl p (h p hp).1 (h p hp).2)
  simp only [seriesJSON, decodeStruct, decodeMembers, h1, h2]
  simp only [metricFields, metricOf, List.getElem?_cons_zero, List.getElem?_cons_succ,
    decodeString, decodeSlice, hpts, saveError]

theorem decode_responseJSON {F : Type} (fl : Float64 F) (ss : List SeriesText)
    (h : ∀ s ∈ ss, ∀ p ∈ s.points, (fl.ParseFloat p.1).isSome ∧ (ParseInt64 p.2).isSome) :
    decodeStruct (lit "struct \x7b Response []main.metric \"json:\\\"response\\\"\" \x7d")
        (metricsEnvelopeFields fl) (responseJSON ss) ([] : List (metric F)) =
      (ss.map (metricOf fl), none) := by
  have h1 : findField (metricsEnvelopeFields fl) (lit "response") = (metricsEnvelopeFields fl)[0]? := by
    rfl
  have hss := decodeElems_map (⟨[], [], []⟩ : metric F)
    (decodeStruct (lit "main.metric") (metricFields fl)) seriesJSON (metricOf fl) ss
    (fun s hs => decode_seriesJSON fl s (h s hs))
  simp only [responseJSON, decodeStruct, decodeMembers, h1]
  simp only [metricsEnvelopeFields, List.getElem?_cons_zero, decodeSlice, hss, saveError]

theorem saveError_eq_none (a b : Option UnmarshalTypeError) (h : saveError a b = none) :
    a = none ∧ b = none := by
  cases a with
  | none => exact ⟨rfl, by simpa [saveError] using h⟩
  | some e => simp [saveError] at h

theorem decodeMembers_error_none {T : Type} (fields : List (Field T)) :
    ∀ (ms : List (GoString × JValue)) (acc : T × Option UnmarshalTypeError),
      (decodeMembers fields ms acc).2 = none → acc.2 = none := by
  intro ms
  induction ms with
  | nil => intro acc h; simpa [decodeMembers] using h
  | cons kv ms ih =>
    intro acc h
    obtain ⟨k, v⟩ := kv
    obtain ⟨dest, saved⟩ := acc
    rw [decodeMembers] at h
    split at h
    · exact ih _ h
    · exact (saveError_eq_none _ _ (ih _ h)).1

theorem findField_isSome {T : Type} (fields : List (Field T)) (key : GoString)
    (h : ∃ f ∈ fields, foldName f.name = foldName key) : ∃ f, findField fields key = some f := by
  obtain ⟨f, hf, hfold⟩ := h
  unfold findField
  cases h1 : fields.find? (fun f => f.name = key) with
  | some g => exact ⟨g, rfl⟩
  | none =>
    cases h2 : fields.find? (fun f => foldName f.name = foldName key) with
    | some g => exact ⟨g, rfl⟩
    | none =>
      exfalso
      have := List.find?_eq_none.1 h2 f hf
      simp [hfold] at this

theorem decodeMembers_onlyMember {T A : Type} (fields : List (Field T)) (proj : T → A)
    (pre post : List (GoString × JValue)) (k : GoString) (v : JValue) (d : T)
    (hsome : ∃ f, findField fields k = some f)
    (hother : ∀ kv ∈ pre ++ post, ∀ f, findField fields kv.1 = some f →
      ∀ d2, proj (f.store kv.2 d2).1 = proj d2) :
    ∃ f d1, findField fields k = some f ∧ proj d1 = proj d ∧
      proj (decodeMembers fields (pre ++ (k, v) :: post) (d, none)).1 = proj (f.store v d1).1 ∧
      ((decodeMembers fields (pre ++ (k, v) :: post) (d, none)).2 = none →
        (f.store v d1).2 = none) := by
  obtain ⟨f, hf⟩ := hsome
  have hpre : proj (decodeMembers fields pre (d, none)).1 = proj d :=
    decodeMembers_invariant_mem (fun x => proj x = proj d) fields pre (d, none)
      (fun kv hkv f2 hf2 d2 hd2 => by
        have := hother kv (by simp [hkv]) f2 hf2 d2
        simp only at hd2 ⊢
        rw [this, hd2])
      rfl
  refine ⟨f, (decodeMembers fields pre (d, none)).1, hf, hpre, ?_, ?_⟩
  · rw [decodeMembers_append]
    rw [show decodeMembers fields pre (d, none) =
      ((decodeMembers fields pre (d, none)).1, (decodeMembers fields pre (d, none)).2) from rfl]
    rw [decodeMembers]
    simp only [hf]
    exact decodeMembers_invariant_mem
      (fun x => proj x = proj (f.store v (decodeMembers fields pre (d, none)).1).1) fields post _
      (fun kv hkv f2 hf2 d2 hd2 => by
        have := hother kv (by simp [hkv]) f2 hf2 d2
        simp only at hd2 ⊢
        rw [this, hd2])
      rfl
  · intro herr
    rw [decodeMembers_append] at herr
    rw [show decodeMembers fields pre (d, none) =
      ((decodeMembers fields pre (d, none)).1, (decodeMembers fields pre (d, none)).2) from rfl]
      at herr
    rw [decodeMembers] at herr
    simp only [hf] at herr
    exact (saveError_eq_none _ _ (decodeMembers_error_none fields post _ herr)).2

theorem decodeElems_nil_old {T : Type} (zero : T)
    (elem : JValue → T → T × Option UnmarshalTypeError) :
    ∀ xs : List JValue,
      (decodeElems zero elem xs []).1 = xs.map (fun x => (elem x zero).1) ∧
      ((decodeElems zero elem xs []).2 = none → ∀ x ∈ xs, (elem x zero).2 = none) := by
  intro xs
  induction xs with
  | nil => exact ⟨rfl, fun _ x hx => absurd hx (List.not_mem_nil _)⟩
  | cons x xs ih =>
    simp only [decodeElems, List.headD_nil, List.tail_nil, List.map_cons, ih.1, true_and]
    intro h y hy
    have hs := saveError_eq_none _ _ h
    rcases List.mem_cons.1 hy with rfl | hy
    · exact hs.1
    · exact ih.2 hs.2 y hy

theorem point_of_onlyMember {F : Type} (fl : Float64 F) (ms3 : List (GoString × JValue))
    (d : point F) (herr : (decodeMembers (pointFields fl) ms3 (d, none)).2 = none) :
    (∀ vt, onlyMember (lit "value") ms3 (.number vt) →
      fl.ParseFloat vt = some (decodeMembers (pointFields fl) ms3 (d, none)).1.Value) ∧
    (∀ tt, onlyMember (lit "timestamp") ms3 (.number tt) →
      ParseInt64 tt = some (decodeMembers (pointFields fl) ms3 (d, none)).1.Timestamp) := by
  constructor
  · rintro vt ⟨pre, k, post, rfl, hk, hrest⟩
    obtain ⟨f, d1, hf, -, hval, herr2⟩ :=
      decodeMembers_onlyMember (pointFields fl) (fun p : point F => p.Value) pre post k
        (.number vt) d
        (findField_isSome _ _ ⟨_, List.mem_cons_self _ _, hk.symm⟩)
        (by
          intro kv hkv f2 hf2 d2
          have hsel := findField_selects _ _ _ hf2
          have hmem := findField_mem _ _ _ hf2
          simp only [pointFields, List.mem_cons, List.mem_singleton, List.not_mem_nil,
            or_false] at hmem
          rcases hmem with rfl | rfl
          · exact absurd hsel.symm (hrest kv hkv)
          · rfl)
    have hsel := findField_selects _ _ _ hf
    have hmem := findField_mem _ _ _ hf
    have herr3 := herr2 herr
    simp only [pointFields, List.mem_cons, List.mem_singleton, List.not_mem_nil,
      or_false] at hmem
    rcases hmem with rfl | rfl
    · simp only at hval herr3
      rw [hval]
      simp only [decodeFloat] at herr3 ⊢
      cases hp : fl.ParseFloat vt with
      | none => simp [hp] at herr3
      | some x => simp
    · exact absurd (show foldName (lit "timestamp") = foldName (lit "value") from hsel.trans hk) (by decide)
  · rintro tt ⟨pre, k, post, rfl, hk, hrest⟩
    obtain ⟨f, d1, hf, -, hval, herr2⟩ :=
      decodeMembers_onlyMember (pointFields fl) (fun p : point F => p.Timestamp) pre post k
        (.number tt) d
        (findField_isSome _ _
          ⟨_, List.mem_cons_of_mem _ (List.mem_cons_self _ _), hk.symm⟩)
        (by
          intro kv hkv f2 hf2 d2
          have hsel := findField_selects _ _ _ hf2
          have hmem := findField_mem _ _ _ hf2
          simp only [pointFields, List.mem_cons, List.mem_singleton, List.not_mem_nil,
            or_false] at hmem
          rcases hmem with rfl | rfl
          · rfl
          · exact absurd hsel.symm (hrest kv hkv))
    have hsel := findField_selects _ _ _ hf
    have hmem := findField_mem _ _ _ hf
    have herr3 := herr2 herr
    simp only [pointFields, List.mem_cons, List.mem_singleton, List.not_mem_nil,
      or_false] at hmem
    rcases hmem with rfl | rfl
    · exact absurd (show foldName (lit "value") = foldName (lit "timestamp") from hsel.trans hk) (by decide)
    · simp only at hval herr3
      rw [hval]
      simp only [decodeInt] at herr3 ⊢
      cases hp : ParseInt64 tt with
      | none => simp [hp] at herr3
      | some x => simp

theorem metric_of_onlyMember {F : Type} (fl : Float64 F) (ms2 : List (GoString × JValue))
    (d : metric F) (hd : d.Points = []) :
    (∀ t, onlyMember (lit "target") ms2 (.string t) →
      (decodeMembers (metricFields fl) ms2 (d, none)).1.Target = t) ∧
    (∀ ps, onlyMember (lit "points") ms2 (.array ps) →
      (decodeMembers (metricFields fl) ms2 (d, none)).1.Points =
        ps.map (fun p => (decodeStruct (lit "main.point") (pointFields fl) p ⟨fl.zero, 0⟩).1) ∧
      ((decodeMembers (metricFields fl) ms2 (d, none)).2 = none →
        ∀ p ∈ ps, (decodeStruct (lit "main.point") (pointFields fl) p ⟨fl.zero, 0⟩).2 = none)) := by
  constructor
  · rintro t ⟨pre, k, post, rfl, hk, hrest⟩
    obtain ⟨f, d1, hf, -, hval, -⟩ :=
      decodeMembers_onlyMember (metricFields fl) (fun m : metric F => m.Target) pre post k
        (.string t) d
        (findField_isSome _ _
          ⟨_, List.mem_cons_of_mem _ (List.mem_cons_self _ _), hk.symm⟩)
        (by
          intro kv hkv f2 hf2 d2
          have hsel := findField_selects _ _ _ hf2
          have hmem := findField_mem _ _ _ hf2
          simp only [metricFields, List.mem_cons, List.mem_singleton, List.not_mem_nil,
            or_false] at hmem
          rcases hmem with rfl | rfl | rfl
          · rfl
          · exact absurd hsel.symm (hrest kv hkv)
          · rfl)
    have hsel := findField_selects _ _ _ hf
    have hmem := findField_mem _ _ _ hf
    simp only [metricFields, List.mem_cons, List.mem_singleton, List.not_mem_nil,
      or_false] at hmem
    rcases hmem with rfl | rfl | rfl
    · exact absurd (show foldName (lit "GroupID") = foldName (lit "target") from hsel.trans hk) (by decide)
    · simp only at hval
      rw [hval]
      rfl
    · exact absurd (show foldName (lit "points") = foldName (lit "target") from hsel.trans hk) (by decide)
  · rintro ps ⟨pre, k, post, rfl, hk, hrest⟩
    obtain ⟨f, d1, hf, hd1, hval, herr2⟩ :=
      decodeMembers_onlyMember (metricFields fl) (fun m : metric F => m.Points) pre post k
        (.array ps) d
        (findField_isSome _ _
          ⟨_, List.mem_cons_of_mem _ (List.mem_cons_of_mem _ (List.mem_cons_self _ _)), hk.symm⟩)
        (by
          intro kv hkv f2 hf2 d2
          have hsel := findField_selects _ _ _ hf2
          have hmem := findField_mem _ _ _ hf2
          simp only [metricFields, List.mem_cons, List.mem_singleton, List.not_mem_nil,
            or_false] at hmem
          rcases hmem with rfl | rfl | rfl
          · rfl
          · rfl
          · exact absurd hsel.symm (hrest kv hkv))
    have hsel := findField_selects _ _ _ hf
    have hmem := findField_mem _ _ _ hf
    simp only [metricFields, List.mem_cons, List.mem_singleton, List.not_mem_nil,
      or_false] at hmem
    have hd1' : d1.Points = [] := by simpa [hd] using hd1
    rcases hmem with rfl | rfl | rfl
    · exact absurd (show foldName (lit "GroupID") = foldName (lit "points") from hsel.trans hk) (by decide)
    · exact absurd (show foldName (lit "target") = foldName (lit "points") from hsel.trans hk) (by decide)
    · simp only [decodeSlice, hd1'] at hval herr2
      have hel := decodeElems_nil_old (⟨fl.zero, 0⟩ : point F)
        (decodeStruct (lit "main.point") (pointFields fl)) ps
      exact ⟨hval.trans hel.1, fun h => hel.2 (herr2 h)⟩

theorem envelope_of_onlyMember {F : Type} (fl : Float64 F) (ms : List (GoString × JValue))
    (xs : List JValue) (h : onlyMember (lit "response") ms (.array xs)) :
    (decodeMembers (metricsEnvelopeFields fl) ms (([] : List (metric F)), none)).1 =
      xs.map (fun x => (decodeStruct (lit "main.metric") (metricFields fl) x ⟨[], [], []⟩).1) ∧
    ((decodeMembers (metricsEnvelopeFields fl) ms (([] : List (metric F)), none)).2 = none →
      ∀ x ∈ xs, (decodeStruct (lit "main.metric") (metricFields fl) x ⟨[], [], []⟩).2 = none) := by
  obtain ⟨pre, k, post, rfl, hk, hrest⟩ := h
  obtain ⟨f, d1, hf, hd1, hval, herr2⟩ :=
    decodeMembers_onlyMember (metricsEnvelopeFields fl) (fun l : List (metric F) => l) pre post k
      (.array xs) []
      (findField_isSome _ _ ⟨_, List.mem_cons_self _ _, hk.symm⟩)
      (by
        intro kv hkv f2 hf2 d2
        have hsel := findField_selects _ _ _ hf2
        have hmem := findField_mem _ _ _ hf2
        simp only [metricsEnvelopeFields, List.mem_singleton] at hmem
        subst hmem
        exact absurd hsel.symm (hrest kv hkv))
  have hmem := findField_mem _ _ _ hf
  simp only [metricsEnvelopeFields, List.mem_singleton] at hmem
  subst hmem
  have hd1' : d1 = [] := hd1
  subst hd1'
  simp only [decodeSlice] at hval herr2
  have hel := decodeElems_nil_old (⟨[], [], []⟩ : metric F)
    (decodeStruct (lit "main.metric") (metricFields fl)) xs
  exact ⟨hval.trans hel.1, fun h => hel.2 (herr2 h)⟩

theorem gatherMetrics_exit_of_object {F : Type} (fl : Float64 F) (env : Env) (c : client)
    (g : GoString) (ms : List (GoString × JValue))
    (hnew : env.NewRequest MethodPost (queryRequest c g).url = none)
    (hdo : env.Do (queryRequest c g) = .ok ⟨200, .ok (.object ms)⟩) :
    (gatherMetrics fl env c g).exit =
      match (decodeMembers (metricsEnvelopeFields fl) ms (([] : List (metric F)), none)).2 with
      | some e => .returned ([], some (.decoding (.type_ e)))
      | none =>
        .returned ((decodeMembers (metricsEnvelopeFields fl) ms (([] : List (metric F)), none)).1,
          none) := by
  cases h : (decodeMembers (metricsEnvelopeFields fl) ms (([] : List (metric F)), none)).2 <;>
    simp [gatherMetrics, hnew, hdo, StatusOK, decodeStruct, h]

/-- C8, as stated, fails: a body whose series object repeats its `points` member, first
with the entry `{"value":1,"timestamp":1}` and then with the entry `{"timestamp":2}`, is
decoded without error, and the one point returned has the value of the first entry and
the timestamp of the second; it is the point of neither entry. -/
theorem C8_repeated_points_mix_entries :
    (gatherMetrics literalFloats
        ⟨fun _ _ => none, fun _ => .ok ⟨200, .ok (.object [(lit "response", .array
          [.object
            [(lit "target", .string (lit "bytesdelivered")),
             (lit "points", .array
               [.object [(lit "value", .number (lit "1")), (lit "timestamp", .number (lit "1"))]]),
             (lit "points", .array
               [.object [(lit "timestamp", .number (lit "2"))]])]])])⟩⟩
        ⟨lit "user", lit "secret", lit "C1", lit "tok"⟩ (lit "dg-42")).exit
      = .returned ([⟨[], lit "bytesdelivered", [⟨lit "1", 2⟩]⟩], none) ∧
    (⟨lit "1", 2⟩ : point GoString) ≠ ⟨lit "1", 1⟩ ∧
    (⟨lit "1", 2⟩ : point GoString) ≠ ⟨literalFloats.zero, 2⟩ := by
  decide

/-- C8, amended: for every 200 answer whose body is a JSON object and is decoded without
error, (a) if the body has one `response` member and it is an array, `gatherMetrics`
returns one metric per element of that array, in the same order; for an element that is
an object with one `target` member, a string, the metric has that target; for an element
with one `points` member, an array of N entries, the metric has exactly N points; and
for an entry that is an object with one `value` member (one `timestamp` member), a
number, the point at the same index carries the conversion of that very literal. The
members may come in any order and next to any other members; only a member that occurs
twice is left out. (b) A body whose one `response` member is the empty array is accepted
without error and gives no metric. (c) A body of the documented shape whose number
literals convert, series without points included, is accepted without error and gives
the metrics of its series. -/
theorem C8_points_follow_entries {F : Type} (fl : Float64 F) (env : Env) (c : client)
    (g : GoString) (ms : List (GoString × JValue))
    (hnew : env.NewRequest MethodPost (queryRequest c g).url = none)
    (hdo : env.Do (queryRequest c g) = .ok ⟨200, .ok (.object ms)⟩) :
    (∀ xs out, onlyMember (lit "response") ms (.array xs) →
      (gatherMetrics fl env c g).exit = .returned (out, none) →
      out.length = xs.length ∧
      ∀ i (hi : i < xs.length) (ho : i < out.length) ms2, xs[i] = .object ms2 →
        (∀ t, onlyMember (lit "target") ms2 (.string t) → (out[i]).Target = t) ∧
        (∀ ps, onlyMember (lit "points") ms2 (.array ps) →
          (out[i]).Points.length = ps.length ∧
          ∀ j (hj : j < ps.length) (hp : j < (out[i]).Points.length) ms3, ps[j] = .object ms3 →
            (∀ vt, onlyMember (lit "value") ms3 (.number vt) →
              fl.ParseFloat vt = some ((out[i]).Points[j]).Value) ∧
            (∀ tt, onlyMember (lit "timestamp") ms3 (.number tt) →
              ParseInt64 tt = some ((out[i]).Points[j]).Timestamp))) ∧
    (onlyMember (lit "response") ms (.array []) →
      (gatherMetrics fl env c g).exit = .returned ([], none)) ∧
    (∀ ss : List SeriesText, ms = [(lit "response", .array (ss.map seriesJSON))] →
      (∀ s ∈ ss, ∀ p ∈ s.points, (fl.ParseFloat p.1).isSome ∧ (ParseInt64 p.2).isSome) →
      (gatherMetrics fl env c g).exit = .returned (ss.map (metricOf fl), none)) := by
  have hexit := gatherMetrics_exit_of_object fl env c g ms hnew hdo
  refine ⟨?_, ?_, ?_⟩
  · intro xs out hresp hok
    have henv := envelope_of_onlyMember fl ms xs hresp
    rw [hexit] at hok
    cases herr : (decodeMembers (metricsEnvelopeFields fl) ms (([] : List (metric F)), none)).2 with
    | some e => simp [herr] at hok
    | none =>
      simp only [herr, Exit.returned.injEq, Prod.mk.injEq, and_true] at hok
      have hout : out = xs.map
          (fun x => (decodeStruct (lit "main.metric") (metricFields fl) x ⟨[], [], []⟩).1) :=
        hok.symm.trans henv.1
      have hnoerr := henv.2 herr
      subst hout
      refine ⟨by simp, ?_⟩
      intro i hi ho ms2 hx
      have herr2 : (decodeMembers (metricFields fl) ms2 ((⟨[], [], []⟩ : metric F), none)).2 = none := by
        have := hnoerr (xs[i]) (List.getElem_mem _)
        rw [hx] at this
        simpa [decodeStruct] using this
      have hm := metric_of_onlyMember fl ms2 (⟨[], [], []⟩ : metric F) rfl
      simp only [List.getElem_map, hx, decodeStruct]
      refine ⟨hm.1, ?_⟩
      intro ps hps
      obtain ⟨hpts, hperr⟩ := hm.2 ps hps
      have hperr2 := hperr herr2
      refine ⟨by rw [hpts]; simp, ?_⟩
      intro j hj hp ms3 hp3
      have herr3 : (decodeMembers (pointFields fl) ms3 ((⟨fl.zero, 0⟩ : point F), none)).2 = none := by
        have := hperr2 (ps[j]) (List.getElem_mem _)
        rw [hp3] at this
        simpa [decodeStruct] using this
      have hpt := point_of_onlyMember fl ms3 (⟨fl.zero, 0⟩ : point F) herr3
      have hidx : ((decodeMembers (metricFields fl) ms2 ((⟨[], [], []⟩ : metric F), none)).1.Points)[j] =
          (decodeMembers (pointFields fl) ms3 ((⟨fl.zero, 0⟩ : point F), none)).1 := by
        simp only [hpts, List.getElem_map, hp3, decodeStruct]
      rw [hidx]
      exact hpt
  · intro hresp
    obtain ⟨pre, k, post, rfl, hk, hrest⟩ := hresp
    have hskip : ∀ l : List (GoString × JValue),
        (∀ kv ∈ l, foldName kv.1 ≠ foldName (lit "response")) →
        ∀ kv ∈ l, findField (metricsEnvelopeFields fl) kv.1 = none := by
      intro l hl kv hkv
      simp only [metricsEnvelopeFields, findField_single]
      rw [if_neg]
      exact fun e => hl kv hkv e.symm
    have hpre := hskip pre (fun kv hkv => hrest kv (by simp [hkv]))
    have hpost := hskip post (fun kv hkv => hrest kv (by simp [hkv]))
    have hdec : decodeMembers (metricsEnvelopeFields fl) (pre ++ (k, .array []) :: post)
        (([] : List (metric F)), none) = ([], none) := by
      rw [decodeMembers_append, decodeMembers_skip _ _ _ hpre, decodeMembers]
      simp only [metricsEnvelopeFields] at hpost ⊢
      simp only [findField_single, hk, if_true, decodeSlice, decodeElems, saveError]
      exact decodeMembers_skip _ _ _ hpost
    rw [hexit, hdec]
  · intro ss hms hnum
    have hdec := decode_responseJSON fl ss hnum
    simp only [responseJSON, decodeStruct] at hdec
    rw [hexit, hms, hdec]

/-- Witness of C8's amended statement: the answer `reorderedAnswer` is decoded without
error into one metric with one point, whose value and timestamp are those of the entry. -/
theorem C8_points_follow_entries_witness :
    (gatherMetrics literalFloats
        ⟨fun _ _ => none, fun _ => .ok ⟨200, .ok (.object reorderedAnswer)⟩⟩
        ⟨lit "user", lit "secret", lit "C1", lit "tok"⟩ (lit "dg-42")).exit =
      .returned ([⟨[], lit "bytesdelivered", [⟨lit "1.5", 5⟩]⟩], none) ∧
    onlyMember (lit "response") reorderedAnswer (.array [.object reorderedSeries]) ∧
    literalFloats.ParseFloat (lit "1.5") = some (lit "1.5") ∧
    ParseInt64 (lit "5") = some 5 :=
  have hok : (gatherMetrics literalFloats
      ⟨fun _ _ => none, fun _ => .ok ⟨200, .ok (.object reorderedAnswer)⟩⟩
      ⟨lit "user", lit "secret", lit "C1", lit "tok"⟩ (lit "dg-42")).exit =
      .returned ([⟨[], lit "bytesdelivered", [⟨lit "1.5", 5⟩]⟩], none) := by decide
  have hresp : onlyMember (lit "response") reorderedAnswer (.array [.object reorderedSeries]) :=
    ⟨[(lit "meta", .number (lit "1"))], lit "response", [], rfl, rfl, by
      intro kv hkv
      simp only [List.append_nil, List.mem_singleton] at hkv
      subst hkv
      decide⟩
  have hpoints : onlyMember (lit "points") reorderedSeries (.array [.object reorderedPoint]) :=
    ⟨[], lit "points", [(lit "target", .string (lit "bytesdelivered"))], rfl, rfl, by
      intro kv hkv
      simp only [List.nil_append, List.mem_singleton] at hkv
      subst hkv
      decide⟩
  have hvalue : onlyMember (lit "value") reorderedPoint (.number (lit "1.5")) :=
    ⟨[(lit "timestamp", .number (lit "5")), (lit "unit", .string (lit "B"))], lit "value", [],
      rfl, rfl, by
      intro kv hkv
      simp only [List.append_nil, List.mem_cons, List.mem_singleton, List.not_mem_nil,
        or_false] at hkv
      rcases hkv with rfl | rfl <;> decide⟩
  have htime : onlyMember (lit "timestamp") reorderedPoint (.number (lit "5")) :=
    ⟨[], lit "timestamp", [(lit "unit", .string (lit "B")), (lit "value", .number (lit "1.5"))],
      rfl, rfl, by
      intro kv hkv
      simp only [List.nil_append, List.mem_cons, List.mem_singleton, List.not_mem_nil,
        or_false] at hkv
      rcases hkv with rfl | rfl <;> decide⟩
  have hpt :=
    ((((C8_points_follow_entries literalFloats
      ⟨fun _ _ => none, fun _ => .ok ⟨200, .ok (.object reorderedAnswer)⟩⟩
      ⟨lit "user", lit "secret", lit "C1", lit "tok"⟩ (lit "dg-42") reorderedAnswer rfl rfl).1
      [.object reorderedSeries] [⟨[], lit "bytesdelivered", [⟨lit "1.5", 5⟩]⟩] hresp hok).2
      0 (by decide) (by decide) reorderedSeries rfl).2
      [.object reorderedPoint] hpoints).2 0 (by decide) (by decide) reorderedPoint rfl
  ⟨hok, hresp, hpt.1 (lit "1.5") hvalue, hpt.2 (lit "5") htime⟩

/-- Witness of C3: the status 204 with an empty JSON body. -/
theorem C3_non_200_witness :
    (getCustomerID ⟨fun _ _ => none, fun _ => .ok ⟨204, .ok .null⟩⟩
        ⟨lit "user", lit "secret", lit "C1", lit "tok"⟩).exit =
      .returned ([], some (.status 204)) ∧
    (getCustomerID ⟨fun _ _ => none, fun _ => .ok ⟨204, .ok .null⟩⟩
        ⟨lit "user", lit "secret", lit "C1", lit "tok"⟩).state =
      ⟨lit "user", lit "secret", lit "C1", lit "tok"⟩ ∧
    fmtInt 204 <:+: (Err.status 204).Error :=
  (C3_non_200_is_status_error literalFloats ⟨fun _ _ => none, fun _ => .ok ⟨204, .ok .null⟩⟩
    ⟨lit "user", lit "secret", lit "C1", lit "tok"⟩ (lit "C1") (lit "dg-42")).1
    ⟨204, .ok .null⟩ rfl rfl (by decide)

/-- Witness of C7's amended statement: a token answer with one `access_token` member. -/
theorem C7_login_token_witness :
    (login
        ⟨fun _ _ => none, fun _ => .ok ⟨200, .ok (.object
          [(lit "access_token", .string (lit "tok")), (lit "expires_in", .number (lit "3600"))])⟩⟩
        ⟨lit "user", lit "secret", [], []⟩ (lit "a") (lit "b")).exit = .returned none ∧
    (login
        ⟨fun _ _ => none, fun _ => .ok ⟨200, .ok (.object
          [(lit "access_token", .string (lit "tok")), (lit "expires_in", .number (lit "3600"))])⟩⟩
        ⟨lit "user", lit "secret", [], []⟩ (lit "a") (lit "b")).state =
      ⟨lit "user", lit "secret", [], lit "tok"⟩ :=
  (C7_login_token_stored_or_kept
    ⟨fun _ _ => none, fun _ => .ok ⟨200, .ok (.object
      [(lit "access_token", .string (lit "tok")), (lit "expires_in", .number (lit "3600"))])⟩⟩
    ⟨lit "user", lit "secret", [], []⟩ (lit "a") (lit "b")
    [(lit "access_token", .string (lit "tok")), (lit "expires_in", .number (lit "3600"))]
    (by decide) (by decide) rfl rfl).1
    [] (lit "access_token") (lit "tok") [(lit "expires_in", .number (lit "3600"))] rfl rfl
    (by
      intro kv hkv
      simp only [List.nil_append, List.mem_singleton] at hkv
      subst hkv
      decide)

/-- Witness of C9: the group `dg-42` of the specification's scenario. -/
theorem C9_targets_witness :
    (targets (lit "dg-42")).length = 7 ∧ (∀ t ∈ targets (lit "dg-42"), lit "dg-42" <:+: t) ∧
    (∀ t ∈ targets (lit "dg-42"), ∃ m ∈ metricNames, aliasClause m <:+ t) :=
  ⟨(C9_targets_contain_group_and_alias (lit "dg-42")).1,
    (C9_targets_contain_group_and_alias (lit "dg-42")).2.1,
    (C9_targets_contain_group_and_alias (lit "dg-42")).2.2.1⟩

/-- Witness of C10: non-empty arguments do not make a client without a stored
username proceed. -/
theorem C10_login_ignores_witness :
    ((⟨[], lit "secret", [], []⟩ : client).username = [] ∨
        (⟨[], lit "secret", [], []⟩ : client).password = []) ∧
    (∃ msg, (login ⟨fun _ _ => none, fun _ => .ok ⟨200, .ok (.object [])⟩⟩
        ⟨[], lit "secret", [], []⟩ (lit "user") (lit "secret")).exit = .exited msg) ∧
    (login ⟨fun _ _ => none, fun _ => .ok ⟨200, .ok (.object [])⟩⟩
        ⟨[], lit "secret", [], []⟩ (lit "user") (lit "secret")).sent = [] :=
  ⟨Or.inl rfl,
    (C10_login_ignores_its_arguments ⟨fun _ _ => none, fun _ => .ok ⟨200, .ok (.object [])⟩⟩
      ⟨[], lit "secret", [], []⟩ (lit "user") (lit "secret") (lit "x") (lit "y")).2.2.1 (Or.inl rfl)⟩

end Lswb
